import Mathlib

/-!
Verification of the cat_scan aggregation core (src/cat-scan/cat_scan/src/main.rs).

The Rust source is shallowly embedded: serde_json values become the Json
inductive below, u64/u32 counters become Nat with explicit truncation
modulo 2 ^ 32 where the source casts, f64 prices become rationals, and the
BTreeMap views of GlobalStats become sorted association lists updated by
updateAssoc, which mimics the entry-or-default-then-mutate pattern of the
source.  All definitions are translated from the source; the only
spec-modelled operation is the point-wise shard merge, which exists only in
the specification text.
-/

/-- Numbers of a parsed JSON document.  serde_json stores a non-negative
integer in its u64 arm, a negative integer in its i64 arm and any other
number as f64; the f64 arm is modelled by a rational. -/
inductive JNum where
  | uint (n : Nat)
  | int (i : Int)
  | float (q : ℚ)
deriving DecidableEq

/-- A parsed JSON value, mirroring serde_json Value. -/
inductive Json where
  | null
  | bool (b : Bool)
  | num (v : JNum)
  | str (s : String)
  | arr (elems : List Json)
  | obj (entries : List (String × Json))

/-- Object field lookup, mirroring Value.get(key): some value for an object
that has the key, none otherwise. -/
def Json.get (j : Json) (key : String) : Option Json :=
  match j with
  | .obj entries => lookupField key entries
  | _ => none
where lookupField (key : String) : List (String × Json) → Option Json
  | [] => none
  | (k, v) :: rest => if key = k then some v else lookupField key rest

/-- Indexing with a string key, mirroring Value indexing which yields Null
for a missing key or a non-object. -/
def Json.index (j : Json) (key : String) : Json :=
  (j.get key).getD .null

/-- Indexing with an array position, mirroring Value indexing which yields
Null when out of range or for a non-array. -/
def Json.idx (j : Json) (i : Nat) : Json :=
  match j with
  | .arr elems => (elems.drop i).headD .null
  | _ => .null

/-- Mirrors Value.as_u64: only the unsigned-integer arm yields a value. -/
def Json.as_u64 (j : Json) : Option Nat :=
  match j with
  | .num (.uint n) => some n
  | _ => none

/-- Mirrors Value.as_f64: every numeric arm yields a value. -/
def Json.as_f64 (j : Json) : Option ℚ :=
  match j with
  | .num (.uint n) => some (n : ℚ)
  | .num (.int i) => some (i : ℚ)
  | .num (.float q) => some q
  | _ => none

/-- Mirrors Value.as_str. -/
def Json.as_str (j : Json) : Option String :=
  match j with
  | .str s => some s
  | _ => none

/-- Mirrors Value.as_array. -/
def Json.as_array (j : Json) : Option (List Json) :=
  match j with
  | .arr elems => some elems
  | _ => none

/-- One log line: request, response (Null when absent by serde default) and
an optional millisecond timestamp. -/
structure LogRecord where
  request : Json
  response : Json
  ts_ms : Option Nat

/-- Per-key counters of one aggregation view. -/
structure FormatStats where
  requests : Nat
  bids : Nat
  sum_bid_price : ℚ
deriving DecidableEq

/-- Stats of one minute bucket of the time view. -/
structure TimeStats where
  requests : Nat
  bids : Nat
  sum_bid_price : ℚ
  min_ts : Nat
  max_ts : Nat
deriving DecidableEq

/-- Zero-initialised FormatStats, mirroring the derived Default. -/
def fs0 : FormatStats := ⟨0, 0, 0⟩

/-- Zero-initialised TimeStats, mirroring the derived Default. -/
def ts0 : TimeStats := ⟨0, 0, 0, 0, 0⟩

/-- The 18-entry catalog of the source: canonical point, lower bounds and
upper bounds of the tolerance window, in the exact scan order of the
source. -/
def standards : List ((Nat × Nat) × (Nat × Nat) × (Nat × Nat)) :=
  [ ((300, 250), (290, 240), (310, 260)),
    ((320, 50), (310, 45), (330, 55)),
    ((320, 100), (310, 90), (330, 110)),
    ((728, 90), (718, 85), (738, 95)),
    ((160, 600), (150, 590), (170, 610)),
    ((300, 600), (290, 590), (310, 610)),
    ((970, 250), (960, 240), (980, 260)),
    ((970, 90), (960, 85), (980, 95)),
    ((468, 60), (458, 55), (478, 65)),
    ((120, 600), (110, 590), (130, 610)),
    ((250, 250), (240, 240), (260, 260)),
    ((336, 280), (326, 270), (346, 290)),
    ((180, 150), (170, 140), (190, 160)),
    ((300, 100), (290, 90), (310, 110)),
    ((320, 480), (310, 470), (330, 490)),
    ((480, 320), (470, 310), (490, 330)),
    ((1024, 768), (1014, 758), (1034, 778)),
    ((768, 1024), (758, 1014), (778, 1034)) ]

/-- Tolerance-window membership of one catalog entry, as tested by the scan
loop of canonical_size. -/
def in_window (e : (Nat × Nat) × (Nat × Nat) × (Nat × Nat)) (w h : Nat) : Prop :=
  e.2.1.1 ≤ w ∧ w ≤ e.2.2.1 ∧ e.2.1.2 ≤ h ∧ h ≤ e.2.2.2

instance (e : (Nat × Nat) × (Nat × Nat) × (Nat × Nat)) (w h : Nat) :
    Decidable (in_window e w h) := by
  unfold in_window
  infer_instance

/-- First-match scan over a catalog, the loop body of canonical_size. -/
def scan_standards (w h : Nat) :
    List ((Nat × Nat) × (Nat × Nat) × (Nat × Nat)) → Option (Nat × Nat)
  | [] => none
  | e :: rest => if in_window e w h then some e.1 else scan_standards w h rest

/-- Mirrors canonical_size of the source: first catalog entry whose window
contains the size wins, otherwise the size is returned unchanged. -/
def canonical_size (w h : Nat) : Nat × Nat :=
  (scan_standards w h standards).getD (w, h)

/-- The 18 canonical reference points, in the order the source lists them
inside is_standard_size. -/
def standard_points : List (Nat × Nat) :=
  [ (300, 250), (320, 50), (320, 100), (728, 90), (160, 600),
    (300, 600), (970, 250), (970, 90), (468, 60), (120, 600),
    (250, 250), (336, 280), (180, 150), (300, 100), (320, 480),
    (480, 320), (1024, 768), (768, 1024) ]

/-- Mirrors is_standard_size of the source: the canonicalised size must be
one of the 18 reference points. -/
def is_standard_size (w h : Nat) : Bool :=
  standard_points.contains (canonical_size w h)

/-- The JSON value at request.imp[0].banner.w. -/
def w_json (record : LogRecord) : Json :=
  (((record.request.index "imp").idx 0).index "banner").index "w"

/-- The JSON value at request.imp[0].banner.h. -/
def h_json (record : LogRecord) : Json :=
  (((record.request.index "imp").idx 0).index "banner").index "h"

/-- Width extraction: request.imp[0].banner.w read via as_u64 with default
0 and cast to u32, that is reduced modulo 2 ^ 32. -/
def extract_w (record : LogRecord) : Nat :=
  (w_json record).as_u64.getD 0 % 2 ^ 32

/-- Height extraction, symmetric to extract_w. -/
def extract_h (record : LogRecord) : Nat :=
  (h_json record).as_u64.getD 0 % 2 ^ 32

/-- Mirrors the has_bid computation: the seatbid field is an array with at
least one element. -/
def has_bid (record : LogRecord) : Bool :=
  ((((record.response.get "seatbid").bind Json.as_array).map
    (fun arr => !arr.isEmpty)).getD false)

/-- The price path: first seatbid entry, its bid array, its first element,
its price field, as f64. -/
def price_path (record : LogRecord) : Option ℚ :=
  (((((((record.response.get "seatbid").bind Json.as_array).bind List.head?).bind
    (fun sb => sb.get "bid")).bind Json.as_array).bind List.head?).bind
    (fun b => b.get "price")).bind Json.as_f64

/-- Mirrors the bid_price computation: the price path with default 0 when a
bid is present, 0 otherwise. -/
def bid_price (record : LogRecord) : ℚ :=
  if has_bid record then (price_path record).getD 0 else 0

/-- Source-id extraction: request.source.ssp as a string, defaulting to the
empty string. -/
def extract_ssp (record : LogRecord) : String :=
  (((record.request.get "source").bind (fun s => s.get "ssp")).bind Json.as_str).getD ""

/-- Publisher-id extraction: request.site.publisher.id as a string. -/
def extract_pub (record : LogRecord) : Option String :=
  (((record.request.get "site").bind (fun s => s.get "publisher")).bind
    (fun p => p.get "id")).bind Json.as_str

/-- Segment-id extraction: request.user.data[0].segment[0].id as a string. -/
def extract_seg (record : LogRecord) : Option String :=
  (((((((record.request.get "user").bind (fun u => u.get "data")).bind
    Json.as_array).bind List.head?).bind (fun d => d.get "segment")).bind
    Json.as_array).bind List.head?).bind
    (fun seg => (seg.get "id").bind Json.as_str)

/-- Sorted-association-list update mimicking BTreeMap entry(k).or_default()
followed by a mutation f: an existing entry is mutated in place, a missing
key is inserted at its ordered position with f applied to the default. -/
def updateAssoc {κ β : Type} [DecidableEq κ] (lt : κ → κ → Bool)
    (k : κ) (f : β → β) (d : β) : List (κ × β) → List (κ × β)
  | [] => [(k, f d)]
  | (a, b) :: rest =>
    if k = a then (a, f b) :: rest
    else if lt k a then (k, f d) :: (a, b) :: rest
    else (a, b) :: updateAssoc lt k f d rest

/-- Association-list lookup, mirroring BTreeMap get. -/
def lookupA {κ β : Type} [DecidableEq κ] (k : κ) : List (κ × β) → Option β
  | [] => none
  | (a, b) :: rest => if k = a then some b else lookupA k rest

/-- Boolean strict order on Nat, the BTreeMap key order of minute buckets. -/
def natLtB (a b : Nat) : Bool := decide (a < b)

/-- Boolean strict order on String, the BTreeMap key order of source ids.
Rust compares strings byte-wise, which on valid UTF-8 agrees with the
code-point lexicographic order used here. -/
def strLtB (a b : String) : Bool := decide (a < b)

/-- Lexicographic combination of two boolean strict orders, matching the
derived Ord of the source key structs and of tuples. -/
def lexLt {α β : Type} [DecidableEq α]
    (la : α → α → Bool) (lb : β → β → Bool) (x y : α × β) : Bool :=
  la x.1 y.1 || (decide (x.1 = y.1) && lb x.2 y.2)

/-- Key order of the two size-keyed views. -/
def sizeLt : Nat × Nat → Nat × Nat → Bool := lexLt natLtB natLtB

/-- Key order of the publisher and segment views: source id first, then the
second id, as the derived Ord of the source key structs gives. -/
def pubLt : String × String → String × String → Bool := lexLt strLtB strLtB

/-- The six independent views of the source GlobalStats struct, as sorted
association lists. -/
structure GlobalStats where
  by_raw_format : List ((Nat × Nat) × FormatStats)
  by_canonical_format : List ((Nat × Nat) × FormatStats)
  by_publisher : List ((String × String) × FormatStats)
  by_segment : List ((String × String) × FormatStats)
  by_ssp : List (String × FormatStats)
  time_stats : List (Nat × TimeStats)

/-- Mirrors GlobalStats::new, all views empty. -/
def GlobalStats.new : GlobalStats := ⟨[], [], [], [], [], []⟩

/-- The per-entry mutation of update_stats in the source: requests grows by
one, and on a bid the bid count and price sum grow. -/
def upd_fs (b : Bool) (p : ℚ) (e : FormatStats) : FormatStats :=
  { requests := e.requests + 1,
    bids := if b then e.bids + 1 else e.bids,
    sum_bid_price := if b then e.sum_bid_price + p else e.sum_bid_price }

/-- The per-bucket mutation of the time view: counters as in upd_fs, the
minimum via the zero-sentinel test of the source, the maximum by a plain
comparison. -/
def upd_ts (ts : Nat) (b : Bool) (p : ℚ) (e : TimeStats) : TimeStats :=
  { requests := e.requests + 1,
    bids := if b then e.bids + 1 else e.bids,
    sum_bid_price := if b then e.sum_bid_price + p else e.sum_bid_price,
    min_ts := if e.min_ts = 0 ∨ ts < e.min_ts then ts else e.min_ts,
    max_ts := if e.max_ts < ts then ts else e.max_ts }

/-- Mirrors process_record_global: extract the size, skip the record when a
dimension is zero, then update each applicable view with the shared
has_bid and bid_price values. -/
def process_record_global (record : LogRecord) (global : GlobalStats) : GlobalStats :=
  let w := extract_w record
  let h := extract_h record
  if w = 0 ∨ h = 0 then global
  else
    let b := has_bid record
    let p := bid_price record
    let ssp := extract_ssp record
    { by_raw_format := updateAssoc sizeLt (w, h) (upd_fs b p) fs0 global.by_raw_format,
      by_canonical_format :=
        updateAssoc sizeLt (canonical_size w h) (upd_fs b p) fs0 global.by_canonical_format,
      by_publisher :=
        match extract_pub record with
        | some pub_id => updateAssoc pubLt (ssp, pub_id) (upd_fs b p) fs0 global.by_publisher
        | none => global.by_publisher,
      by_segment :=
        match extract_seg record with
        | some seg_id => updateAssoc pubLt (ssp, seg_id) (upd_fs b p) fs0 global.by_segment
        | none => global.by_segment,
      by_ssp :=
        if ssp = "" then global.by_ssp
        else updateAssoc strLtB ssp (upd_fs b p) fs0 global.by_ssp,
      time_stats :=
        match record.ts_ms with
        | some ts_ms =>
            updateAssoc natLtB (ts_ms / 60000) (upd_ts ts_ms b p) ts0 global.time_stats
        | none => global.time_stats }

/-- Sequential ingestion of a record stream, the fold performed by
process_lines_global over already parsed records. -/
def ingest (recs : List LogRecord) (global : GlobalStats) : GlobalStats :=
  recs.foldl (fun g r => process_record_global r g) global

/-- Mirrors bid_rate of the source. -/
def bid_rate (stat : FormatStats) : ℚ :=
  if stat.requests = 0 then 0 else (stat.bids : ℚ) / (stat.requests : ℚ)

/-- Mirrors avg_bid_price of the source. -/
def avg_bid_price (stat : FormatStats) : ℚ :=
  if stat.bids = 0 then 0 else stat.sum_bid_price / (stat.bids : ℚ)

/-- One flagged problem format. -/
structure ProblemFormat where
  w : Nat
  h : Nat
  requests : Nat
  bids : Nat
  bid_rate : ℚ
  problem_type : String
deriving DecidableEq

/-- The rule chain of the loop body of find_problem_formats: zero_bids,
then non_standard, then low_bid_rate, first match winning, none when no
rule fires. -/
def classify_entry (t : Nat) (e : (Nat × Nat) × FormatStats) : Option ProblemFormat :=
  let w := e.1.1
  let h := e.1.2
  let stats := e.2
  let rate := bid_rate stats
  if stats.bids = 0 ∧ t ≤ stats.requests then
    some ⟨w, h, stats.requests, stats.bids, rate, "zero_bids"⟩
  else if is_standard_size w h = false ∧ t ≤ stats.requests then
    some ⟨w, h, stats.requests, stats.bids, rate, "non_standard"⟩
  else if rate < 1 / 100 ∧ t ≤ stats.requests ∧ 0 < stats.bids then
    some ⟨w, h, stats.requests, stats.bids, rate, "low_bid_rate"⟩
  else none

/-- Stable descending insertion by request count; together with sort_desc
this models the stable sort_by of the source, whose output is determined
by the comparator and stability alone. -/
def insert_desc (p : ProblemFormat) : List ProblemFormat → List ProblemFormat
  | [] => [p]
  | q :: rest =>
    if q.requests ≤ p.requests then p :: q :: rest else q :: insert_desc p rest

/-- Stable sort by requests descending. -/
def sort_desc : List ProblemFormat → List ProblemFormat
  | [] => []
  | p :: rest => insert_desc p (sort_desc rest)

/-- Mirrors find_problem_formats: classify each raw-size entry in iteration
order, keep the first firing rule, drop silent entries, sort by requests
descending with the stable sort of the source. -/
def find_problem_formats (global : GlobalStats) (min_volume_threshold : Nat) :
    List ProblemFormat :=
  sort_desc (global.by_raw_format.filterMap (classify_entry min_volume_threshold))

/-- Modelled from the spec: the optional shard merge of the specification
sums corresponding counters point-wise; addFS is that sum on one counter
triple.  The source has no merge function, so this definition follows the
specification text. -/
def addFS (a b : FormatStats) : FormatStats :=
  ⟨a.requests + b.requests, a.bids + b.bids, a.sum_bid_price + b.sum_bid_price⟩

/-- The three pure counters of a time bucket, forgetting min and max. -/
def TimeStats.counters (t : TimeStats) : FormatStats :=
  ⟨t.requests, t.bids, t.sum_bid_price⟩

/-- Raw-size view lookup with the zero default of BTreeMap or_default. -/
def raw_stats (g : GlobalStats) (k : Nat × Nat) : FormatStats :=
  (lookupA k g.by_raw_format).getD fs0

/-- Canonical-size view lookup. -/
def canon_stats (g : GlobalStats) (k : Nat × Nat) : FormatStats :=
  (lookupA k g.by_canonical_format).getD fs0

/-- Publisher view lookup. -/
def pub_stats (g : GlobalStats) (k : String × String) : FormatStats :=
  (lookupA k g.by_publisher).getD fs0

/-- Segment view lookup. -/
def seg_stats (g : GlobalStats) (k : String × String) : FormatStats :=
  (lookupA k g.by_segment).getD fs0

/-- Source view lookup. -/
def ssp_stats (g : GlobalStats) (k : String) : FormatStats :=
  (lookupA k g.by_ssp).getD fs0

/-- Time view lookup. -/
def time_at (g : GlobalStats) (k : Nat) : TimeStats :=
  (lookupA k g.time_stats).getD ts0

/-- Strict-linear-order properties of a boolean comparator. -/
structure IsLinOrd {κ : Type} (lt : κ → κ → Bool) : Prop where
  asymm : ∀ a b, lt a b = true → lt b a = false
  trns : ∀ a b c, lt a b = true → lt b c = true → lt a c = true
  total : ∀ a b, a ≠ b → lt a b = true ∨ lt b a = true

/-- Strict sortedness of an association list under a comparator. -/
def SortedL {κ β : Type} (lt : κ → κ → Bool) (m : List (κ × β)) : Prop :=
  m.Pairwise (fun x y => lt x.1 y.1 = true)

/-- All six views are strictly sorted by their key order. -/
def SortedG (g : GlobalStats) : Prop :=
  SortedL sizeLt g.by_raw_format ∧ SortedL sizeLt g.by_canonical_format ∧
  SortedL pubLt g.by_publisher ∧ SortedL pubLt g.by_segment ∧
  SortedL strLtB g.by_ssp ∧ SortedL natLtB g.time_stats

/-- Bid count bounded by request count. -/
def goodFS (s : FormatStats) : Prop := s.bids ≤ s.requests

/-- Request and bid counters did not decrease. -/
def growFS (a b : FormatStats) : Prop := a.requests ≤ b.requests ∧ a.bids ≤ b.bids

/-- Every entry of every view satisfies goodFS. -/
def allViewsGood (g : GlobalStats) : Prop :=
  (∀ k, goodFS (raw_stats g k)) ∧ (∀ k, goodFS (canon_stats g k)) ∧
  (∀ k, goodFS (pub_stats g k)) ∧ (∀ k, goodFS (seg_stats g k)) ∧
  (∀ k, goodFS (ssp_stats g k)) ∧ (∀ k, goodFS (time_at g k).counters)

/-- Request and bid counters of every key of every view did not decrease
between two states. -/
def viewsGrow (g g2 : GlobalStats) : Prop :=
  (∀ k, growFS (raw_stats g k) (raw_stats g2 k)) ∧
  (∀ k, growFS (canon_stats g k) (canon_stats g2 k)) ∧
  (∀ k, growFS (pub_stats g k) (pub_stats g2 k)) ∧
  (∀ k, growFS (seg_stats g k) (seg_stats g2 k)) ∧
  (∀ k, growFS (ssp_stats g k) (ssp_stats g2 k)) ∧
  (∀ k, growFS (time_at g k).counters (time_at g2 k).counters)

/-- Between two states, a price sum either stands still or grows by the
given price together with exactly one new bid. -/
def lockstepFS (p : ℚ) (a b : FormatStats) : Prop :=
  b.sum_bid_price = a.sum_bid_price ∨
  (b.bids = a.bids + 1 ∧ b.sum_bid_price = a.sum_bid_price + p)

/-- The lockstep property over every key of every view for one record. -/
def sumsLockstep (r : LogRecord) (g g2 : GlobalStats) : Prop :=
  (∀ k, lockstepFS (bid_price r) (raw_stats g k) (raw_stats g2 k)) ∧
  (∀ k, lockstepFS (bid_price r) (canon_stats g k) (canon_stats g2 k)) ∧
  (∀ k, lockstepFS (bid_price r) (pub_stats g k) (pub_stats g2 k)) ∧
  (∀ k, lockstepFS (bid_price r) (seg_stats g k) (seg_stats g2 k)) ∧
  (∀ k, lockstepFS (bid_price r) (ssp_stats g k) (ssp_stats g2 k)) ∧
  (∀ k, lockstepFS (bid_price r) (time_at g k).counters (time_at g2 k).counters)

/-- Price sums of every key of every view are identical in two states. -/
def sumsEq (g g2 : GlobalStats) : Prop :=
  (∀ k, (raw_stats g2 k).sum_bid_price = (raw_stats g k).sum_bid_price) ∧
  (∀ k, (canon_stats g2 k).sum_bid_price = (canon_stats g k).sum_bid_price) ∧
  (∀ k, (pub_stats g2 k).sum_bid_price = (pub_stats g k).sum_bid_price) ∧
  (∀ k, (seg_stats g2 k).sum_bid_price = (seg_stats g k).sum_bid_price) ∧
  (∀ k, (ssp_stats g2 k).sum_bid_price = (ssp_stats g k).sum_bid_price) ∧
  (∀ k, (time_at g2 k).sum_bid_price = (time_at g k).sum_bid_price)

/-- Price sums of every key of every view did not decrease. -/
def sumsGrow (g g2 : GlobalStats) : Prop :=
  (∀ k, (raw_stats g k).sum_bid_price ≤ (raw_stats g2 k).sum_bid_price) ∧
  (∀ k, (canon_stats g k).sum_bid_price ≤ (canon_stats g2 k).sum_bid_price) ∧
  (∀ k, (pub_stats g k).sum_bid_price ≤ (pub_stats g2 k).sum_bid_price) ∧
  (∀ k, (seg_stats g k).sum_bid_price ≤ (seg_stats g2 k).sum_bid_price) ∧
  (∀ k, (ssp_stats g k).sum_bid_price ≤ (ssp_stats g2 k).sum_bid_price) ∧
  (∀ k, (time_at g k).sum_bid_price ≤ (time_at g2 k).sum_bid_price)

/-- Request body with one impression carrying a banner with the two given
JSON values as width and height. -/
def mk_banner_request (wv hv : Json) : Json :=
  .obj [("imp", .arr [.obj [("banner", .obj [("w", wv), ("h", hv)])]])]

/-- Response with one seat-bid entry holding one bid with the given price
value. -/
def resp_bid (p : Json) : Json :=
  .obj [("seatbid", .arr [.obj [("bid", .arr [.obj [("price", p)]])]])]

/-- Test record: 300 by 250 banner, one bid priced 1, timestamp 59. -/
def rec_bid : LogRecord :=
  ⟨mk_banner_request (.num (.uint 300)) (.num (.uint 250)),
    resp_bid (.num (.float 1)), some 59⟩

/-- Test record: 300 by 250 banner, one bid with a negative price. -/
def rec_neg : LogRecord :=
  ⟨mk_banner_request (.num (.uint 300)) (.num (.uint 250)),
    resp_bid (.num (.float (-1))), none⟩

/-- Test record: 300 by 250 banner, no response at all. -/
def rec_nobid : LogRecord :=
  ⟨mk_banner_request (.num (.uint 300)) (.num (.uint 250)), .null, none⟩

/-- Test record: 300 by 250 banner, non-empty seat-bid array whose first
entry has no bid array at all. -/
def rec_noprice : LogRecord :=
  ⟨mk_banner_request (.num (.uint 300)) (.num (.uint 250)),
    .obj [("seatbid", .arr [.obj []])], none⟩

/-- Test record: banner whose width field is absent. -/
def rec_now : LogRecord :=
  ⟨.obj [("imp", .arr [.obj [("banner", .obj [("h", .num (.uint 250))])]])], .null, none⟩

/-- Test record: valid banner with timestamp 0. -/
def rec_ts0 : LogRecord :=
  ⟨mk_banner_request (.num (.uint 300)) (.num (.uint 250)), .null, some 0⟩

/-- Test record: valid banner with timestamp 59, same minute bucket as
timestamp 0. -/
def rec_ts59 : LogRecord :=
  ⟨mk_banner_request (.num (.uint 300)) (.num (.uint 250)), .null, some 59⟩

/-- Comparators built from a linear order are strict linear orders. -/
theorem isLinOrd_natLtB : IsLinOrd natLtB := by
  constructor
  · intro a b h
    simp only [natLtB, decide_eq_true_eq] at h ⊢
    simp only [decide_eq_false_iff_not]
    omega
  · intro a b c hab hbc
    simp only [natLtB, decide_eq_true_eq] at hab hbc ⊢
    omega
  · intro a b h
    simp only [natLtB, decide_eq_true_eq]
    omega

/-- The string comparator is a strict linear order. -/
theorem isLinOrd_strLtB : IsLinOrd strLtB := by
  constructor
  · intro a b h
    simp only [strLtB, decide_eq_true_eq] at h
    simp only [strLtB, decide_eq_false_iff_not]
    exact lt_asymm h
  · intro a b c hab hbc
    simp only [strLtB, decide_eq_true_eq] at hab hbc ⊢
    exact lt_trans hab hbc
  · intro a b h
    simp only [strLtB, decide_eq_true_eq]
    rcases lt_trichotomy a b with hlt | heq | hgt
    · exact Or.inl hlt
    · exact absurd heq h
    · exact Or.inr hgt

/-- A comparator satisfying IsLinOrd never relates a key to itself. -/
theorem IsLinOrd.irrefl {κ : Type} {lt : κ → κ → Bool} (h : IsLinOrd lt)
    (a : κ) : lt a a = false := by
  by_cases hc : lt a a = true
  · have := h.asymm _ _ hc
    rw [hc] at this
    exact absurd this (by simp)
  · simpa using hc

/-- A comparator that holds separates the two keys. -/
theorem IsLinOrd.ne {κ : Type} {lt : κ → κ → Bool} (h : IsLinOrd lt)
    {a b : κ} (hab : lt a b = true) : a ≠ b := by
  intro he
  subst he
  rw [h.irrefl a] at hab
  exact absurd hab (by simp)

/-- Lexicographic combination preserves the strict-linear-order properties. -/
theorem isLinOrd_lexLt {α β : Type} [DecidableEq α]
    {la : α → α → Bool} {lb : β → β → Bool}
    (ha : IsLinOrd la) (hb : IsLinOrd lb) : IsLinOrd (lexLt la lb) := by
  constructor
  · intro x y h
    simp only [lexLt, Bool.or_eq_true, Bool.and_eq_true, decide_eq_true_eq] at h
    simp only [lexLt, Bool.or_eq_false_iff, Bool.and_eq_false_iff,
      decide_eq_false_iff_not]
    rcases h with h1 | ⟨heq, h2⟩
    · exact ⟨ha.asymm _ _ h1, Or.inl (Ne.symm (ha.ne h1))⟩
    · refine ⟨?_, Or.inr (hb.asymm _ _ h2)⟩
      rw [← heq]
      exact ha.irrefl x.1
  · intro x y z hxy hyz
    simp only [lexLt, Bool.or_eq_true, Bool.and_eq_true, decide_eq_true_eq] at hxy hyz ⊢
    rcases hxy with h1 | ⟨he1, h2⟩
    · rcases hyz with h3 | ⟨he3, h4⟩
      · exact Or.inl (ha.trns _ _ _ h1 h3)
      · exact Or.inl (he3 ▸ h1)
    · rcases hyz with h3 | ⟨he3, h4⟩
      · exact Or.inl (he1 ▸ h3)
      · exact Or.inr ⟨he1.trans he3, hb.trns _ _ _ h2 h4⟩
  · intro x y h
    simp only [lexLt, Bool.or_eq_true, Bool.and_eq_true, decide_eq_true_eq]
    by_cases h1 : x.1 = y.1
    · have h2 : x.2 ≠ y.2 := by
        intro h2
        exact h (Prod.ext h1 h2)
      rcases hb.total _ _ h2 with hl | hr
      · exact Or.inl (Or.inr ⟨h1, hl⟩)
      · exact Or.inr (Or.inr ⟨h1.symm, hr⟩)
    · rcases ha.total _ _ h1 with hl | hr
      · exact Or.inl (Or.inl hl)
      · exact Or.inr (Or.inl hr)

/-- The size-key comparator is a strict linear order. -/
theorem isLinOrd_sizeLt : IsLinOrd sizeLt :=
  isLinOrd_lexLt isLinOrd_natLtB isLinOrd_natLtB

/-- The compound-string-key comparator is a strict linear order. -/
theorem isLinOrd_pubLt : IsLinOrd pubLt :=
  isLinOrd_lexLt isLinOrd_strLtB isLinOrd_strLtB

/-- Members of an updated association list come from the list or carry the
updated key. -/
theorem mem_updateAssoc {κ β : Type} [DecidableEq κ] {lt : κ → κ → Bool}
    {k : κ} {f : β → β} {d : β} {m : List (κ × β)} {x : κ × β}
    (hx : x ∈ updateAssoc lt k f d m) : x ∈ m ∨ x.1 = k := by
  induction m with
  | nil =>
    simp only [updateAssoc, List.mem_singleton] at hx
    subst hx
    exact Or.inr rfl
  | cons e rest ih =>
    obtain ⟨a, b⟩ := e
    simp only [updateAssoc] at hx
    by_cases h1 : k = a
    · simp only [if_pos h1, List.mem_cons] at hx
      rcases hx with h | h
      · exact Or.inr (by simp [h, h1])
      · exact Or.inl (List.mem_cons_of_mem _ h)
    · simp only [if_neg h1] at hx
      by_cases h2 : lt k a = true
      · simp only [if_pos h2, List.mem_cons] at hx
        rcases hx with h | h | h
        · exact Or.inr (by simp [h])
        · exact Or.inl (by simp [h])
        · exact Or.inl (List.mem_cons_of_mem _ h)
      · simp only [if_neg h2, List.mem_cons] at hx
        rcases hx with h | h
        · exact Or.inl (by simp [h])
        · rcases ih h with h3 | h3
          · exact Or.inl (List.mem_cons_of_mem _ h3)
          · exact Or.inr h3

/-- Updating preserves strict sortedness. -/
theorem sorted_updateAssoc {κ β : Type} [DecidableEq κ] {lt : κ → κ → Bool}
    (hlt : IsLinOrd lt) {k : κ} {f : β → β} {d : β} {m : List (κ × β)}
    (hm : SortedL lt m) : SortedL lt (updateAssoc lt k f d m) := by
  induction m with
  | nil => simp [updateAssoc, SortedL]
  | cons e rest ih =>
    obtain ⟨a, b⟩ := e
    rw [SortedL, List.pairwise_cons] at hm
    obtain ⟨hhead, hrest⟩ := hm
    simp only [updateAssoc]
    by_cases h1 : k = a
    · rw [if_pos h1, SortedL, List.pairwise_cons]
      exact ⟨hhead, hrest⟩
    · rw [if_neg h1]
      by_cases h2 : lt k a = true
      · rw [if_pos h2, SortedL, List.pairwise_cons, List.pairwise_cons]
        refine ⟨?_, hhead, hrest⟩
        intro y hy
        rcases List.mem_cons.mp hy with hya | hyr
        · simpa [hya] using h2
        · exact hlt.trns _ _ _ h2 (hhead y hyr)
      · rw [if_neg h2, SortedL, List.pairwise_cons]
        refine ⟨?_, ih hrest⟩
        intro y hy
        rcases mem_updateAssoc hy with h3 | h3
        · exact hhead y h3
        · rw [h3]
          rcases hlt.total k a (fun he => h1 he) with hl | hr
          · exact absurd hl h2
          · exact hr

/-- Keys absent from a list look up to none. -/
theorem lookupA_eq_none {κ β : Type} [DecidableEq κ] {k : κ} {m : List (κ × β)}
    (h : ∀ e ∈ m, e.1 ≠ k) : lookupA k m = none := by
  induction m with
  | nil => rfl
  | cons e rest ih =>
    obtain ⟨a, b⟩ := e
    simp only [lookupA]
    rw [if_neg, ih]
    · intro x hx
      exact h x (List.mem_cons_of_mem _ hx)
    · intro he
      exact h (a, b) (List.mem_cons_self _ _) he.symm

/-- Looking up the updated key yields the mutated previous value, the
default being mutated when the key was absent. -/
theorem lookupA_updateAssoc_self {κ β : Type} [DecidableEq κ] {lt : κ → κ → Bool}
    (hlt : IsLinOrd lt) {k : κ} {f : β → β} {d : β} {m : List (κ × β)}
    (hm : SortedL lt m) :
    lookupA k (updateAssoc lt k f d m) = some (f ((lookupA k m).getD d)) := by
  induction m with
  | nil => simp [updateAssoc, lookupA]
  | cons e rest ih =>
    obtain ⟨a, b⟩ := e
    rw [SortedL, List.pairwise_cons] at hm
    obtain ⟨hhead, hrest⟩ := hm
    simp only [updateAssoc]
    by_cases h1 : k = a
    · rw [if_pos h1]
      simp [lookupA, h1]
    · rw [if_neg h1]
      by_cases h2 : lt k a = true
      · rw [if_pos h2]
        have habs : lookupA k rest = (none : Option β) := by
          apply lookupA_eq_none
          intro x hx
          have := hhead x hx
          exact Ne.symm (hlt.ne (hlt.trns _ _ _ h2 this))
        simp [lookupA, h1, habs]
      · rw [if_neg h2]
        simp only [lookupA, if_neg h1]
        exact ih hrest

/-- Looking up any other key is unaffected by the update. -/
theorem lookupA_updateAssoc_ne {κ β : Type} [DecidableEq κ] {lt : κ → κ → Bool}
    {k k2 : κ} {f : β → β} {d : β} {m : List (κ × β)} (hne : k2 ≠ k) :
    lookupA k2 (updateAssoc lt k f d m) = lookupA k2 m := by
  induction m with
  | nil => simp [updateAssoc, lookupA, hne]
  | cons e rest ih =>
    obtain ⟨a, b⟩ := e
    simp only [updateAssoc]
    by_cases h1 : k = a
    · rw [if_pos h1]
      simp only [lookupA]
      rw [if_neg (h1 ▸ hne), if_neg (h1 ▸ hne)]
    · rw [if_neg h1]
      by_cases h2 : lt k a = true
      · rw [if_pos h2]
        simp only [lookupA, if_neg hne]
      · rw [if_neg h2]
        simp only [lookupA]
        by_cases h3 : k2 = a
        · rw [if_pos h3, if_pos h3]
        · rw [if_neg h3, if_neg h3]
          exact ih

/-- Lookup in a singleton update of the empty list. -/
theorem lookupA_updateAssoc_nil {κ β : Type} [DecidableEq κ] {lt : κ → κ → Bool}
    {k k2 : κ} {f : β → β} {d : β} :
    lookupA k2 (updateAssoc lt k f d []) = if k2 = k then some (f d) else none := by
  simp [updateAssoc, lookupA]

/-- A scan returning nothing means no entry matched. -/
theorem scan_standards_eq_none {w h : Nat}
    {l : List ((Nat × Nat) × (Nat × Nat) × (Nat × Nat))}
    (hl : ∀ e ∈ l, ¬ in_window e w h) : scan_standards w h l = none := by
  induction l with
  | nil => rfl
  | cons e rest ih =>
    simp only [scan_standards]
    rw [if_neg (hl e (List.mem_cons_self _ _))]
    exact ih (fun x hx => hl x (List.mem_cons_of_mem _ hx))

/-- When some entry matches, the scan returns the canonical point of the
first matching entry: the list splits into a non-matching prefix, the
winning entry, and a remainder. -/
theorem scan_standards_first_match {w h : Nat}
    {l : List ((Nat × Nat) × (Nat × Nat) × (Nat × Nat))}
    (hl : ∃ e ∈ l, in_window e w h) :
    ∃ l1 e l2, l = l1 ++ e :: l2 ∧ in_window e w h ∧
      (∀ x ∈ l1, ¬ in_window x w h) ∧ scan_standards w h l = some e.1 := by
  induction l with
  | nil => simp at hl
  | cons e0 rest ih =>
    by_cases h0 : in_window e0 w h
    · refine ⟨[], e0, rest, by simp, h0, by simp, ?_⟩
      simp only [scan_standards]
      rw [if_pos h0]
    · have hrest : ∃ e ∈ rest, in_window e w h := by
        rcases hl with ⟨e, he, hw⟩
        rcases List.mem_cons.mp he with h1 | h1
        · exact absurd (h1 ▸ hw) h0
        · exact ⟨e, h1, hw⟩
      obtain ⟨l1, e, l2, heq, hw, hpre, hscan⟩ := ih hrest
      refine ⟨e0 :: l1, e, l2, by simp [heq], hw, ?_, ?_⟩
      · intro x hx
        rcases List.mem_cons.mp hx with h1 | h1
        · exact h1 ▸ h0
        · exact hpre x h1
      · simp only [scan_standards]
        rw [if_neg h0]
        exact hscan

/-- A successful scan result is the canonical point of some list entry. -/
theorem scan_standards_mem {w h : Nat} {c : Nat × Nat}
    {l : List ((Nat × Nat) × (Nat × Nat) × (Nat × Nat))}
    (hc : scan_standards w h l = some c) : ∃ e ∈ l, c = e.1 := by
  induction l with
  | nil => simp [scan_standards] at hc
  | cons e0 rest ih =>
    simp only [scan_standards] at hc
    by_cases h0 : in_window e0 w h
    · rw [if_pos h0] at hc
      exact ⟨e0, List.mem_cons_self _ _, (Option.some_inj.mp hc).symm⟩
    · rw [if_neg h0] at hc
      obtain ⟨e, he, hce⟩ := ih hc
      exact ⟨e, List.mem_cons_of_mem _ he, hce⟩

/-- C1: for every positive size, canonical_size scans the fixed 18-entry
catalog in the priority order of the specification (whose canonical points
are exactly standard_points in that order), a size matches an entry exactly
when it lies inside both coordinate ranges of its tolerance window, the
first matching entry wins, and with no match the input is returned
unchanged. -/
theorem canonical_size_spec (w h : Nat) (hw : 0 < w) (hh : 0 < h) :
    (standards.length = 18 ∧ standards.map (fun e => e.1) = standard_points) ∧
    (∀ e, in_window e w h ↔
      (e.2.1.1 ≤ w ∧ w ≤ e.2.2.1 ∧ e.2.1.2 ≤ h ∧ h ≤ e.2.2.2)) ∧
    ((∃ e ∈ standards, in_window e w h) →
      ∃ l1 e l2, standards = l1 ++ e :: l2 ∧ in_window e w h ∧
        (∀ x ∈ l1, ¬ in_window x w h) ∧ canonical_size w h = e.1) ∧
    ((∀ e ∈ standards, ¬ in_window e w h) → canonical_size w h = (w, h)) := by
  refine ⟨⟨by decide, by decide⟩, fun e => Iff.rfl, ?_, ?_⟩
  · intro hex
    obtain ⟨l1, e, l2, heq, hwin, hpre, hscan⟩ := scan_standards_first_match hex
    exact ⟨l1, e, l2, heq, hwin, hpre, by rw [canonical_size, hscan]; rfl⟩
  · intro hno
    rw [canonical_size, scan_standards_eq_none hno]
    rfl

/-- Witness for C1 at the exact size 320 by 50, matched by the second
catalog entry with a non-matching first entry before it. -/
theorem canonical_size_spec_witness :
    0 < 320 ∧ 0 < 50 ∧
    ((∃ e ∈ standards, in_window e 320 50) → canonical_size 320 50 = (320, 50)) := by
  refine ⟨by decide, by decide, ?_⟩
  intro hex
  obtain ⟨l1, e, l2, heq, hwin, hpre, hres⟩ :=
    (canonical_size_spec 320 50 (by decide) (by decide)).2.2.1 hex
  rw [hres]
  have : canonical_size 320 50 = (320, 50) := by decide
  rw [← hres, this]

/-- C8: canonicalisation is idempotent: applying canonical_size to its own
result changes nothing, and every one of the 18 canonical reference points
maps to itself. -/
theorem canonical_size_idempotent (w h : Nat) :
    canonical_size (canonical_size w h).1 (canonical_size w h).2 = canonical_size w h ∧
    (∀ e ∈ standards, canonical_size e.1.1 e.1.2 = e.1) := by
  have hfix : ∀ e ∈ standards, canonical_size e.1.1 e.1.2 = e.1 := by decide
  refine ⟨?_, hfix⟩
  cases hscan : scan_standards w h standards with
  | none =>
    have hcs : canonical_size w h = (w, h) := by rw [canonical_size, hscan]; rfl
    rw [hcs]
    exact hcs
  | some c =>
    obtain ⟨e, he, hce⟩ := scan_standards_mem hscan
    have hcs : canonical_size w h = c := by rw [canonical_size, hscan]; rfl
    rw [hcs, hce]
    exact hfix e he

/-- Witness for C8 discharging the catalog-membership hypothesis at the
first entry, 300 by 250. -/
theorem canonical_size_idempotent_witness :
    ((300, 250), (290, 240), (310, 260)) ∈ standards ∧
    canonical_size 300 250 = (300, 250) := by
  refine ⟨by decide, ?_⟩
  exact (canonical_size_idempotent 300 250).2 ((300, 250), (290, 240), (310, 260)) (by decide)

/-- Membership in a stable insertion. -/
theorem mem_insert_desc {p x : ProblemFormat} {l : List ProblemFormat} :
    x ∈ insert_desc p l ↔ x = p ∨ x ∈ l := by
  induction l with
  | nil => simp [insert_desc]
  | cons q rest ih =>
    simp only [insert_desc]
    by_cases hq : q.requests ≤ p.requests
    · rw [if_pos hq]
      simp [List.mem_cons]
    · rw [if_neg hq]
      simp only [List.mem_cons, ih]
      tauto

/-- A stable insertion permutes a cons. -/
theorem insert_desc_perm (p : ProblemFormat) (l : List ProblemFormat) :
    List.Perm (insert_desc p l) (p :: l) := by
  induction l with
  | nil => simp [insert_desc]
  | cons q rest ih =>
    simp only [insert_desc]
    by_cases hq : q.requests ≤ p.requests
    · rw [if_pos hq]
    · rw [if_neg hq]
      exact List.Perm.trans (List.Perm.cons q ih) (List.Perm.swap p q rest)

/-- The stable sort permutes its input. -/
theorem sort_desc_perm (l : List ProblemFormat) : List.Perm (sort_desc l) l := by
  induction l with
  | nil => simp [sort_desc]
  | cons p rest ih =>
    exact List.Perm.trans (insert_desc_perm p (sort_desc rest)) (List.Perm.cons p ih)

/-- A stable insertion preserves descending order by request count. -/
theorem pairwise_insert_desc {p : ProblemFormat} {l : List ProblemFormat}
    (hl : l.Pairwise (fun a b => b.requests ≤ a.requests)) :
    (insert_desc p l).Pairwise (fun a b => b.requests ≤ a.requests) := by
  induction l with
  | nil => simp [insert_desc]
  | cons q rest ih =>
    rw [List.pairwise_cons] at hl
    obtain ⟨hq, hrest⟩ := hl
    simp only [insert_desc]
    by_cases hle : q.requests ≤ p.requests
    · rw [if_pos hle, List.pairwise_cons]
      refine ⟨?_, List.pairwise_cons.mpr ⟨hq, hrest⟩⟩
      intro x hx
      rcases List.mem_cons.mp hx with h1 | h1
      · exact h1 ▸ hle
      · exact le_trans (hq x h1) hle
    · rw [if_neg hle, List.pairwise_cons]
      refine ⟨?_, ih hrest⟩
      intro x hx
      rcases mem_insert_desc.mp hx with h1 | h1
      · exact h1 ▸ le_of_not_le hle
      · exact hq x h1

/-- The stable sort is descending by request count. -/
theorem pairwise_sort_desc (l : List ProblemFormat) :
    (sort_desc l).Pairwise (fun a b => b.requests ≤ a.requests) := by
  induction l with
  | nil => simp [sort_desc]
  | cons p rest ih => exact pairwise_insert_desc ih

/-- Stability of the insertion: restricted to one request count, the order
is untouched. -/
theorem filter_insert_desc (p : ProblemFormat) (l : List ProblemFormat) (r : Nat) :
    (insert_desc p l).filter (fun q => decide (q.requests = r)) =
      if p.requests = r
      then p :: l.filter (fun q => decide (q.requests = r))
      else l.filter (fun q => decide (q.requests = r)) := by
  induction l with
  | nil =>
    simp only [insert_desc, List.filter]
    by_cases hp : p.requests = r
    · rw [if_pos hp]
      simp [hp]
    · rw [if_neg hp]
      simp [hp]
  | cons q rest ih =>
    simp only [insert_desc]
    by_cases hle : q.requests ≤ p.requests
    · rw [if_pos hle]
      by_cases hp : p.requests = r
      · simp [List.filter_cons, hp]
      · simp [List.filter_cons, hp]
    · rw [if_neg hle]
      by_cases hp : p.requests = r
      · have hqr : ¬ q.requests = r := by omega
        simp [List.filter_cons, ih, hp, hqr]
      · by_cases hqr : q.requests = r
        · simp [List.filter_cons, ih, hp, hqr]
        · simp [List.filter_cons, ih, hp, hqr]

/-- Stability of the sort: restricted to one request count, the input order
is untouched. -/
theorem filter_sort_desc (l : List ProblemFormat) (r : Nat) :
    (sort_desc l).filter (fun q => decide (q.requests = r)) =
      l.filter (fun q => decide (q.requests = r)) := by
  induction l with
  | nil => rfl
  | cons p rest ih =>
    simp only [sort_desc]
    rw [filter_insert_desc]
    by_cases hp : p.requests = r
    · rw [if_pos hp, ih]
      simp [List.filter, hp]
    · rw [if_neg hp, ih]
      simp [List.filter, hp]

/-- A classification keeps the key of its view entry. -/
theorem classify_entry_key {t : Nat} {e : (Nat × Nat) × FormatStats}
    {p : ProblemFormat} (hp : classify_entry t e = some p) :
    (p.w, p.h) = e.1 := by
  simp only [classify_entry] at hp
  split at hp
  · cases hp
    rfl
  · split at hp
    · cases hp
      rfl
    · split at hp
      · cases hp
        rfl
      · cases hp

/-- The keys of the classified entries form a sublist of the view keys. -/
theorem classify_keys_sublist (t : Nat) (l : List ((Nat × Nat) × FormatStats)) :
    List.Sublist ((l.filterMap (classify_entry t)).map (fun p => (p.w, p.h)))
      (l.map Prod.fst) := by
  induction l with
  | nil => simp
  | cons e rest ih =>
    cases hc : classify_entry t e with
    | none =>
      simp only [List.filterMap_cons, hc, List.map]
      exact List.Sublist.cons _ ih
    | some p =>
      simp only [List.filterMap_cons, hc, List.map]
      rw [classify_entry_key hc]
      exact List.Sublist.cons₂ _ ih

/-- C2: for every finished raw-size view, find_problem_formats classifies
each entry by the rules zero_bids, non_standard, low_bid_rate in that
priority with first match winning (last conjunct group), at most one
problem per raw size (key Nodup), silent entries omitted (permutation with
the classified list and the no-key conjunct), and the result sorted by
requests descending with ties kept in the size-ordered iteration order of
the input view (stability conjunct). -/
theorem find_problem_formats_spec (g : GlobalStats) (t : Nat)
    (hnd : (g.by_raw_format.map Prod.fst).Nodup) :
    (∀ r : Nat, (find_problem_formats g t).filter (fun q => decide (q.requests = r)) =
        (g.by_raw_format.filterMap (classify_entry t)).filter
          (fun q => decide (q.requests = r))) ∧
    List.Perm (find_problem_formats g t) (g.by_raw_format.filterMap (classify_entry t)) ∧
    (find_problem_formats g t).Pairwise (fun a b => b.requests ≤ a.requests) ∧
    ((find_problem_formats g t).map (fun p => (p.w, p.h))).Nodup ∧
    (∀ e ∈ g.by_raw_format, classify_entry t e = none →
        ∀ p ∈ find_problem_formats g t, (p.w, p.h) ≠ e.1) ∧
    (∀ e : (Nat × Nat) × FormatStats,
      (e.2.bids = 0 ∧ t ≤ e.2.requests →
        classify_entry t e =
          some ⟨e.1.1, e.1.2, e.2.requests, e.2.bids, bid_rate e.2, "zero_bids"⟩) ∧
      (¬ (e.2.bids = 0 ∧ t ≤ e.2.requests) →
        is_standard_size e.1.1 e.1.2 = false ∧ t ≤ e.2.requests →
        classify_entry t e =
          some ⟨e.1.1, e.1.2, e.2.requests, e.2.bids, bid_rate e.2, "non_standard"⟩) ∧
      (¬ (e.2.bids = 0 ∧ t ≤ e.2.requests) →
        ¬ (is_standard_size e.1.1 e.1.2 = false ∧ t ≤ e.2.requests) →
        bid_rate e.2 < 1 / 100 ∧ t ≤ e.2.requests ∧ 0 < e.2.bids →
        classify_entry t e =
          some ⟨e.1.1, e.1.2, e.2.requests, e.2.bids, bid_rate e.2, "low_bid_rate"⟩) ∧
      (¬ (e.2.bids = 0 ∧ t ≤ e.2.requests) →
        ¬ (is_standard_size e.1.1 e.1.2 = false ∧ t ≤ e.2.requests) →
        ¬ (bid_rate e.2 < 1 / 100 ∧ t ≤ e.2.requests ∧ 0 < e.2.bids) →
        classify_entry t e = none)) := by
  refine ⟨?_, ?_, ?_, ?_, ?_, ?_⟩
  · intro r
    exact filter_sort_desc _ r
  · exact sort_desc_perm _
  · exact pairwise_sort_desc _
  · have hcl : ((g.by_raw_format.filterMap (classify_entry t)).map
        (fun p => (p.w, p.h))).Nodup :=
      List.Nodup.sublist (classify_keys_sublist t g.by_raw_format) hnd
    have hperm := (sort_desc_perm (g.by_raw_format.filterMap (classify_entry t))).map
      (fun p => (p.w, p.h))
    exact hperm.symm.nodup hcl
  · intro e he hnone p hp hkey
    have hpcl : p ∈ g.by_raw_format.filterMap (classify_entry t) :=
      (sort_desc_perm _).mem_iff.mp hp
    obtain ⟨e2, he2, hc2⟩ := List.mem_filterMap.mp hpcl
    have hk2 : e2.1 = e.1 := by rw [← classify_entry_key hc2, hkey]
    have he2e : e2 = e := List.inj_on_of_nodup_map hnd he2 he hk2
    rw [he2e, hnone] at hc2
    exact Option.noConfusion hc2
  · intro e
    refine ⟨?_, ?_, ?_, ?_⟩
    · intro h1
      simp only [classify_entry]
      rw [if_pos h1]
    · intro h1 h2
      simp only [classify_entry]
      rw [if_neg h1, if_pos h2]
    · intro h1 h2 h3
      simp only [classify_entry]
      rw [if_neg h1, if_neg h2, if_pos h3]
    · intro h1 h2 h3
      simp only [classify_entry]
      rw [if_neg h1, if_neg h2, if_neg h3]

/-- Witness for C2 on the two-entry view of the specification example:
20 bid requests at the non-standard 123 by 456 and 15 zero-bid requests at
300 by 250, threshold 10. -/
theorem find_problem_formats_spec_witness :
    (([((123, 456), (⟨20, 20, 10⟩ : FormatStats)),
       ((300, 250), ⟨15, 0, 0⟩)].map Prod.fst).Nodup) ∧
    (find_problem_formats
      { GlobalStats.new with
        by_raw_format := [((123, 456), ⟨20, 20, 10⟩), ((300, 250), ⟨15, 0, 0⟩)] }
      10).Pairwise (fun a b => b.requests ≤ a.requests) :=
  ⟨by decide,
    (find_problem_formats_spec
      { GlobalStats.new with
        by_raw_format := [((123, 456), ⟨20, 20, 10⟩), ((300, 250), ⟨15, 0, 0⟩)] }
      10 (by decide)).2.2.1⟩

/-- A record with a zero dimension changes nothing. -/
theorem process_skip {r : LogRecord} (g : GlobalStats)
    (h : extract_w r = 0 ∨ extract_h r = 0) : process_record_global r g = g := by
  simp only [process_record_global]
  rw [if_pos h]

/-- Raw view of one processed record. -/
theorem raw_process (r : LogRecord) (g : GlobalStats)
    (h : ¬ (extract_w r = 0 ∨ extract_h r = 0)) :
    (process_record_global r g).by_raw_format =
      updateAssoc sizeLt (extract_w r, extract_h r)
        (upd_fs (has_bid r) (bid_price r)) fs0 g.by_raw_format := by
  simp only [process_record_global]
  rw [if_neg h]

/-- Canonical view of one processed record. -/
theorem canon_process (r : LogRecord) (g : GlobalStats)
    (h : ¬ (extract_w r = 0 ∨ extract_h r = 0)) :
    (process_record_global r g).by_canonical_format =
      updateAssoc sizeLt (canonical_size (extract_w r) (extract_h r))
        (upd_fs (has_bid r) (bid_price r)) fs0 g.by_canonical_format := by
  simp only [process_record_global]
  rw [if_neg h]

/-- Publisher view of one processed record carrying a publisher id. -/
theorem pub_process_some (r : LogRecord) (g : GlobalStats) {pid : String}
    (h : ¬ (extract_w r = 0 ∨ extract_h r = 0)) (hp : extract_pub r = some pid) :
    (process_record_global r g).by_publisher =
      updateAssoc pubLt (extract_ssp r, pid)
        (upd_fs (has_bid r) (bid_price r)) fs0 g.by_publisher := by
  simp only [process_record_global]
  rw [if_neg h]
  simp [hp]

/-- Publisher view untouched without a publisher id. -/
theorem pub_process_none (r : LogRecord) (g : GlobalStats)
    (h : ¬ (extract_w r = 0 ∨ extract_h r = 0)) (hp : extract_pub r = none) :
    (process_record_global r g).by_publisher = g.by_publisher := by
  simp only [process_record_global]
  rw [if_neg h]
  simp [hp]

/-- Segment view of one processed record carrying a segment id. -/
theorem seg_process_some (r : LogRecord) (g : GlobalStats) {sid : String}
    (h : ¬ (extract_w r = 0 ∨ extract_h r = 0)) (hs : extract_seg r = some sid) :
    (process_record_global r g).by_segment =
      updateAssoc pubLt (extract_ssp r, sid)
        (upd_fs (has_bid r) (bid_price r)) fs0 g.by_segment := by
  simp only [process_record_global]
  rw [if_neg h]
  simp [hs]

/-- Segment view untouched without a segment id. -/
theorem seg_process_none (r : LogRecord) (g : GlobalStats)
    (h : ¬ (extract_w r = 0 ∨ extract_h r = 0)) (hs : extract_seg r = none) :
    (process_record_global r g).by_segment = g.by_segment := by
  simp only [process_record_global]
  rw [if_neg h]
  simp [hs]

/-- Source view of one processed record with a non-empty source id. -/
theorem ssp_process_nonempty (r : LogRecord) (g : GlobalStats)
    (h : ¬ (extract_w r = 0 ∨ extract_h r = 0)) (hs : ¬ extract_ssp r = "") :
    (process_record_global r g).by_ssp =
      updateAssoc strLtB (extract_ssp r)
        (upd_fs (has_bid r) (bid_price r)) fs0 g.by_ssp := by
  simp only [process_record_global]
  rw [if_neg h]
  simp [hs]

/-- Source view untouched for an empty source id. -/
theorem ssp_process_empty (r : LogRecord) (g : GlobalStats)
    (h : ¬ (extract_w r = 0 ∨ extract_h r = 0)) (hs : extract_ssp r = "") :
    (process_record_global r g).by_ssp = g.by_ssp := by
  simp only [process_record_global]
  rw [if_neg h]
  simp [hs]

/-- Time view of one processed record carrying a timestamp. -/
theorem time_process_some (r : LogRecord) (g : GlobalStats) {ts : Nat}
    (h : ¬ (extract_w r = 0 ∨ extract_h r = 0)) (ht : r.ts_ms = some ts) :
    (process_record_global r g).time_stats =
      updateAssoc natLtB (ts / 60000)
        (upd_ts ts (has_bid r) (bid_price r)) ts0 g.time_stats := by
  simp only [process_record_global]
  rw [if_neg h]
  simp [ht]

/-- Time view untouched without a timestamp. -/
theorem time_process_none (r : LogRecord) (g : GlobalStats)
    (h : ¬ (extract_w r = 0 ∨ extract_h r = 0)) (ht : r.ts_ms = none) :
    (process_record_global r g).time_stats = g.time_stats := by
  simp only [process_record_global]
  rw [if_neg h]
  simp [ht]

/-- The empty GlobalStats is sorted. -/
theorem sortedG_new : SortedG GlobalStats.new := by
  refine ⟨?_, ?_, ?_, ?_, ?_, ?_⟩ <;> exact List.Pairwise.nil

/-- Processing one record preserves sortedness of every view. -/
theorem sortedG_process (r : LogRecord) (g : GlobalStats) (hg : SortedG g) :
    SortedG (process_record_global r g) := by
  by_cases h : extract_w r = 0 ∨ extract_h r = 0
  · rw [process_skip g h]
    exact hg
  · obtain ⟨h1, h2, h3, h4, h5, h6⟩ := hg
    refine ⟨?_, ?_, ?_, ?_, ?_, ?_⟩
    · rw [raw_process r g h]
      exact sorted_updateAssoc isLinOrd_sizeLt h1
    · rw [canon_process r g h]
      exact sorted_updateAssoc isLinOrd_sizeLt h2
    · cases hp : extract_pub r with
      | none => rw [pub_process_none r g h hp]; exact h3
      | some pid =>
        rw [pub_process_some r g h hp]
        exact sorted_updateAssoc isLinOrd_pubLt h3
    · cases hs : extract_seg r with
      | none => rw [seg_process_none r g h hs]; exact h4
      | some sid =>
        rw [seg_process_some r g h hs]
        exact sorted_updateAssoc isLinOrd_pubLt h4
    · by_cases hs : extract_ssp r = ""
      · rw [ssp_process_empty r g h hs]; exact h5
      · rw [ssp_process_nonempty r g h hs]
        exact sorted_updateAssoc isLinOrd_strLtB h5
    · cases ht : r.ts_ms with
      | none => rw [time_process_none r g h ht]; exact h6
      | some ts =>
        rw [time_process_some r g h ht]
        exact sorted_updateAssoc isLinOrd_natLtB h6

/-- Ingestion preserves sortedness. -/
theorem sortedG_ingest (s : List LogRecord) :
    ∀ g : GlobalStats, SortedG g → SortedG (ingest s g) := by
  induction s with
  | nil => intro g hg; exact hg
  | cons r rest ih =>
    intro g hg
    exact ih (process_record_global r g) (sortedG_process r g hg)

/-- Adding the zero counters changes nothing. -/
theorem addFS_fs0 (a : FormatStats) : addFS a fs0 = a := by
  simp [addFS, fs0]

/-- Point-wise counter addition is associative. -/
theorem addFS_assoc (a b c : FormatStats) :
    addFS (addFS a b) c = addFS a (addFS b c) := by
  simp [addFS, add_assoc]

/-- One update_stats application is the addition of its own contribution on
the zero counters. -/
theorem upd_fs_addFS (b : Bool) (p : ℚ) (e : FormatStats) :
    upd_fs b p e = addFS e (upd_fs b p fs0) := by
  cases b <;> simp [upd_fs, addFS, fs0]

/-- The counters of a time-bucket update behave like update_stats. -/
theorem counters_upd_ts (ts : Nat) (b : Bool) (p : ℚ) (e : TimeStats) :
    (upd_ts ts b p e).counters = upd_fs b p e.counters := by
  cases b <;> simp [upd_ts, upd_fs, TimeStats.counters]

/-- The counters of the zero time bucket are the zero counters. -/
theorem counters_ts0 : ts0.counters = fs0 := rfl

/-- Generic single-update step: after an update, the counters seen through
a projection at any key are the previous counters plus the counters the
update would produce on the empty list. -/
theorem lookup_step {κ β : Type} [DecidableEq κ] {lt : κ → κ → Bool}
    (hlt : IsLinOrd lt) {m : List (κ × β)} (hm : SortedL lt m)
    (π : β → FormatStats) {f : β → β} {d : β}
    (hf : ∀ e, π (f e) = addFS (π e) (π (f d)))
    (hd : π d = fs0) (k k0 : κ) :
    π ((lookupA k (updateAssoc lt k0 f d m)).getD d) =
      addFS (π ((lookupA k m).getD d))
        (π ((lookupA k (updateAssoc lt k0 f d [])).getD d)) := by
  by_cases hk : k = k0
  · subst hk
    rw [lookupA_updateAssoc_self hlt hm, lookupA_updateAssoc_nil]
    rw [if_pos rfl]
    simp only [Option.getD_some]
    exact hf _
  · rw [lookupA_updateAssoc_ne hk, lookupA_updateAssoc_nil, if_neg hk]
    simp only [Option.getD_none]
    rw [hd, addFS_fs0]

/-- Raw-view step additivity. -/
theorem raw_step (r : LogRecord) (g : GlobalStats) (hg : SortedG g) (k : Nat × Nat) :
    raw_stats (process_record_global r g) k =
      addFS (raw_stats g k) (raw_stats (process_record_global r GlobalStats.new) k) := by
  by_cases h : extract_w r = 0 ∨ extract_h r = 0
  · rw [process_skip g h, process_skip GlobalStats.new h]
    have : raw_stats GlobalStats.new k = fs0 := rfl
    rw [this, addFS_fs0]
  · have hnew : (GlobalStats.new).by_raw_format = [] := rfl
    rw [raw_stats, raw_stats, raw_stats, raw_process r g h,
      raw_process r GlobalStats.new h, hnew]
    exact lookup_step isLinOrd_sizeLt hg.1 id
      (fun e => upd_fs_addFS (has_bid r) (bid_price r) e) rfl k _

/-- Canonical-view step additivity. -/
theorem canon_step (r : LogRecord) (g : GlobalStats) (hg : SortedG g) (k : Nat × Nat) :
    canon_stats (process_record_global r g) k =
      addFS (canon_stats g k) (canon_stats (process_record_global r GlobalStats.new) k) := by
  by_cases h : extract_w r = 0 ∨ extract_h r = 0
  · rw [process_skip g h, process_skip GlobalStats.new h]
    have : canon_stats GlobalStats.new k = fs0 := rfl
    rw [this, addFS_fs0]
  · have hnew : (GlobalStats.new).by_canonical_format = [] := rfl
    rw [canon_stats, canon_stats, canon_stats, canon_process r g h,
      canon_process r GlobalStats.new h, hnew]
    exact lookup_step isLinOrd_sizeLt hg.2.1 id
      (fun e => upd_fs_addFS (has_bid r) (bid_price r) e) rfl k _

/-- Publisher-view step additivity. -/
theorem pub_step (r : LogRecord) (g : GlobalStats) (hg : SortedG g) (k : String × String) :
    pub_stats (process_record_global r g) k =
      addFS (pub_stats g k) (pub_stats (process_record_global r GlobalStats.new) k) := by
  by_cases h : extract_w r = 0 ∨ extract_h r = 0
  · rw [process_skip g h, process_skip GlobalStats.new h]
    have : pub_stats GlobalStats.new k = fs0 := rfl
    rw [this, addFS_fs0]
  · cases hp : extract_pub r with
    | none =>
      rw [pub_stats, pub_stats, pub_stats, pub_process_none r g h hp,
        pub_process_none r GlobalStats.new h hp]
      have : (lookupA k (GlobalStats.new).by_publisher).getD fs0 = fs0 := rfl
      rw [this, addFS_fs0]
    | some pid =>
      have hnew : (GlobalStats.new).by_publisher = [] := rfl
      rw [pub_stats, pub_stats, pub_stats, pub_process_some r g h hp,
        pub_process_some r GlobalStats.new h hp, hnew]
      exact lookup_step isLinOrd_pubLt hg.2.2.1 id
        (fun e => upd_fs_addFS (has_bid r) (bid_price r) e) rfl k _

/-- Segment-view step additivity. -/
theorem seg_step (r : LogRecord) (g : GlobalStats) (hg : SortedG g) (k : String × String) :
    seg_stats (process_record_global r g) k =
      addFS (seg_stats g k) (seg_stats (process_record_global r GlobalStats.new) k) := by
  by_cases h : extract_w r = 0 ∨ extract_h r = 0
  · rw [process_skip g h, process_skip GlobalStats.new h]
    have : seg_stats GlobalStats.new k = fs0 := rfl
    rw [this, addFS_fs0]
  · cases hs : extract_seg r with
    | none =>
      rw [seg_stats, seg_stats, seg_stats, seg_process_none r g h hs,
        seg_process_none r GlobalStats.new h hs]
      have : (lookupA k (GlobalStats.new).by_segment).getD fs0 = fs0 := rfl
      rw [this, addFS_fs0]
    | some sid =>
      have hnew : (GlobalStats.new).by_segment = [] := rfl
      rw [seg_stats, seg_stats, seg_stats, seg_process_some r g h hs,
        seg_process_some r GlobalStats.new h hs, hnew]
      exact lookup_step isLinOrd_pubLt hg.2.2.2.1 id
        (fun e => upd_fs_addFS (has_bid r) (bid_price r) e) rfl k _

/-- Source-view step additivity. -/
theorem ssp_step (r : LogRecord) (g : GlobalStats) (hg : SortedG g) (k : String) :
    ssp_stats (process_record_global r g) k =
      addFS (ssp_stats g k) (ssp_stats (process_record_global r GlobalStats.new) k) := by
  by_cases h : extract_w r = 0 ∨ extract_h r = 0
  · rw [process_skip g h, process_skip GlobalStats.new h]
    have : ssp_stats GlobalStats.new k = fs0 := rfl
    rw [this, addFS_fs0]
  · by_cases hs : extract_ssp r = ""
    · rw [ssp_stats, ssp_stats, ssp_stats, ssp_process_empty r g h hs,
        ssp_process_empty r GlobalStats.new h hs]
      have : (lookupA k (GlobalStats.new).by_ssp).getD fs0 = fs0 := rfl
      rw [this, addFS_fs0]
    · have hnew : (GlobalStats.new).by_ssp = [] := rfl
      rw [ssp_stats, ssp_stats, ssp_stats, ssp_process_nonempty r g h hs,
        ssp_process_nonempty r GlobalStats.new h hs, hnew]
      exact lookup_step isLinOrd_strLtB hg.2.2.2.2.1 id
        (fun e => upd_fs_addFS (has_bid r) (bid_price r) e) rfl k _

/-- Time-view step additivity on the three pure counters. -/
theorem time_step (r : LogRecord) (g : GlobalStats) (hg : SortedG g) (k : Nat) :
    (time_at (process_record_global r g) k).counters =
      addFS (time_at g k).counters
        (time_at (process_record_global r GlobalStats.new) k).counters := by
  by_cases h : extract_w r = 0 ∨ extract_h r = 0
  · rw [process_skip g h, process_skip GlobalStats.new h]
    have : (time_at GlobalStats.new k).counters = fs0 := rfl
    rw [this, addFS_fs0]
  · cases ht : r.ts_ms with
    | none =>
      rw [time_at, time_at, time_at, time_process_none r g h ht,
        time_process_none r GlobalStats.new h ht]
      have : ((lookupA k (GlobalStats.new).time_stats).getD ts0).counters = fs0 := rfl
      rw [this, addFS_fs0]
    | some ts =>
      have hnew : (GlobalStats.new).time_stats = [] := rfl
      rw [time_at, time_at, time_at, time_process_some r g h ht,
        time_process_some r GlobalStats.new h ht, hnew]
      refine lookup_step isLinOrd_natLtB hg.2.2.2.2.2 TimeStats.counters ?_ counters_ts0 k _
      intro e
      rw [counters_upd_ts, counters_upd_ts, counters_ts0]
      exact upd_fs_addFS (has_bid r) (bid_price r) e.counters

/-- Generic fold additivity over one view: the counters any ingestion adds
on top of a sorted state are the counters it produces from the empty
state. -/
theorem fold_addFS {κ β : Type} [DecidableEq κ]
    (V : GlobalStats → List (κ × β)) (π : β → FormatStats) (d : β)
    (hd : π d = fs0)
    (hstep : ∀ (r : LogRecord) (g : GlobalStats), SortedG g → ∀ k : κ,
      π ((lookupA k (V (process_record_global r g))).getD d) =
        addFS (π ((lookupA k (V g)).getD d))
          (π ((lookupA k (V (process_record_global r GlobalStats.new))).getD d)))
    (hnew : V GlobalStats.new = []) :
    ∀ (s : List LogRecord) (g : GlobalStats), SortedG g → ∀ k : κ,
      π ((lookupA k (V (ingest s g))).getD d) =
        addFS (π ((lookupA k (V g)).getD d))
          (π ((lookupA k (V (ingest s GlobalStats.new))).getD d)) := by
  intro s
  induction s with
  | nil =>
    intro g hg k
    simp only [ingest, List.foldl_nil]
    rw [hnew]
    simp only [lookupA, Option.getD_none, hd, addFS_fs0]
  | cons r rest ih =>
    intro g hg k
    have h1 : ingest (r :: rest) g = ingest rest (process_record_global r g) := rfl
    have h2 : ingest (r :: rest) GlobalStats.new =
        ingest rest (process_record_global r GlobalStats.new) := rfl
    rw [h1, h2]
    rw [ih (process_record_global r g) (sortedG_process r g hg) k]
    rw [ih (process_record_global r GlobalStats.new)
      (sortedG_process r GlobalStats.new sortedG_new) k]
    rw [hstep r g hg k, addFS_assoc]

/-- C5: ingesting the two halves of any record stream separately and merging
by point-wise summation of the counters gives, for every view and every
key, exactly the aggregates of one sequential ingestion of the
concatenated stream. -/
theorem shard_merge_spec (s1 s2 : List LogRecord) :
    (∀ k, raw_stats (ingest (s1 ++ s2) GlobalStats.new) k =
      addFS (raw_stats (ingest s1 GlobalStats.new) k)
        (raw_stats (ingest s2 GlobalStats.new) k)) ∧
    (∀ k, canon_stats (ingest (s1 ++ s2) GlobalStats.new) k =
      addFS (canon_stats (ingest s1 GlobalStats.new) k)
        (canon_stats (ingest s2 GlobalStats.new) k)) ∧
    (∀ k, pub_stats (ingest (s1 ++ s2) GlobalStats.new) k =
      addFS (pub_stats (ingest s1 GlobalStats.new) k)
        (pub_stats (ingest s2 GlobalStats.new) k)) ∧
    (∀ k, seg_stats (ingest (s1 ++ s2) GlobalStats.new) k =
      addFS (seg_stats (ingest s1 GlobalStats.new) k)
        (seg_stats (ingest s2 GlobalStats.new) k)) ∧
    (∀ k, ssp_stats (ingest (s1 ++ s2) GlobalStats.new) k =
      addFS (ssp_stats (ingest s1 GlobalStats.new) k)
        (ssp_stats (ingest s2 GlobalStats.new) k)) ∧
    (∀ k, (time_at (ingest (s1 ++ s2) GlobalStats.new) k).counters =
      addFS (time_at (ingest s1 GlobalStats.new) k).counters
        (time_at (ingest s2 GlobalStats.new) k).counters) := by
  have happ : ingest (s1 ++ s2) GlobalStats.new =
      ingest s2 (ingest s1 GlobalStats.new) := by
    simp [ingest, List.foldl_append]
  have hs1 : SortedG (ingest s1 GlobalStats.new) :=
    sortedG_ingest s1 GlobalStats.new sortedG_new
  refine ⟨?_, ?_, ?_, ?_, ?_, ?_⟩
  · intro k
    rw [happ]
    exact fold_addFS (fun g => g.by_raw_format) id fs0 rfl
      (fun r g hg k => raw_step r g hg k) rfl s2 (ingest s1 GlobalStats.new) hs1 k
  · intro k
    rw [happ]
    exact fold_addFS (fun g => g.by_canonical_format) id fs0 rfl
      (fun r g hg k => canon_step r g hg k) rfl s2 (ingest s1 GlobalStats.new) hs1 k
  · intro k
    rw [happ]
    exact fold_addFS (fun g => g.by_publisher) id fs0 rfl
      (fun r g hg k => pub_step r g hg k) rfl s2 (ingest s1 GlobalStats.new) hs1 k
  · intro k
    rw [happ]
    exact fold_addFS (fun g => g.by_segment) id fs0 rfl
      (fun r g hg k => seg_step r g hg k) rfl s2 (ingest s1 GlobalStats.new) hs1 k
  · intro k
    rw [happ]
    exact fold_addFS (fun g => g.by_ssp) id fs0 rfl
      (fun r g hg k => ssp_step r g hg k) rfl s2 (ingest s1 GlobalStats.new) hs1 k
  · intro k
    rw [happ]
    exact fold_addFS (fun g => g.time_stats) TimeStats.counters ts0 counters_ts0
      (fun r g hg k => time_step r g hg k) rfl s2 (ingest s1 GlobalStats.new) hs1 k

/-- Lookup after updating the empty list is either the default or the
updated default. -/
theorem getD_updateAssoc_nil_cases {κ β : Type} [DecidableEq κ] {lt : κ → κ → Bool}
    {k k0 : κ} {f : β → β} {d : β} :
    (lookupA k (updateAssoc lt k0 f d [])).getD d = d ∨
    (lookupA k (updateAssoc lt k0 f d [])).getD d = f d := by
  rw [lookupA_updateAssoc_nil]
  by_cases hk : k = k0
  · rw [if_pos hk]
    exact Or.inr rfl
  · rw [if_neg hk]
    exact Or.inl rfl

/-- The raw-view contribution of one record is zero or one update. -/
theorem raw_delta (r : LogRecord) (k : Nat × Nat) :
    raw_stats (process_record_global r GlobalStats.new) k = fs0 ∨
    raw_stats (process_record_global r GlobalStats.new) k =
      upd_fs (has_bid r) (bid_price r) fs0 := by
  by_cases h : extract_w r = 0 ∨ extract_h r = 0
  · rw [process_skip GlobalStats.new h]
    exact Or.inl rfl
  · rw [raw_stats, raw_process r GlobalStats.new h]
    have hnew : (GlobalStats.new).by_raw_format = [] := rfl
    rw [hnew]
    exact getD_updateAssoc_nil_cases

/-- The canonical-view contribution of one record is zero or one update. -/
theorem canon_delta (r : LogRecord) (k : Nat × Nat) :
    canon_stats (process_record_global r GlobalStats.new) k = fs0 ∨
    canon_stats (process_record_global r GlobalStats.new) k =
      upd_fs (has_bid r) (bid_price r) fs0 := by
  by_cases h : extract_w r = 0 ∨ extract_h r = 0
  · rw [process_skip GlobalStats.new h]
    exact Or.inl rfl
  · rw [canon_stats, canon_process r GlobalStats.new h]
    have hnew : (GlobalStats.new).by_canonical_format = [] := rfl
    rw [hnew]
    exact getD_updateAssoc_nil_cases

/-- The publisher-view contribution of one record is zero or one update. -/
theorem pub_delta (r : LogRecord) (k : String × String) :
    pub_stats (process_record_global r GlobalStats.new) k = fs0 ∨
    pub_stats (process_record_global r GlobalStats.new) k =
      upd_fs (has_bid r) (bid_price r) fs0 := by
  by_cases h : extract_w r = 0 ∨ extract_h r = 0
  · rw [process_skip GlobalStats.new h]
    exact Or.inl rfl
  · cases hp : extract_pub r with
    | none =>
      rw [pub_stats, pub_process_none r GlobalStats.new h hp]
      exact Or.inl rfl
    | some pid =>
      rw [pub_stats, pub_process_some r GlobalStats.new h hp]
      have hnew : (GlobalStats.new).by_publisher = [] := rfl
      rw [hnew]
      exact getD_updateAssoc_nil_cases

/-- The segment-view contribution of one record is zero or one update. -/
theorem seg_delta (r : LogRecord) (k : String × String) :
    seg_stats (process_record_global r GlobalStats.new) k = fs0 ∨
    seg_stats (process_record_global r GlobalStats.new) k =
      upd_fs (has_bid r) (bid_price r) fs0 := by
  by_cases h : extract_w r = 0 ∨ extract_h r = 0
  · rw [process_skip GlobalStats.new h]
    exact Or.inl rfl
  · cases hs : extract_seg r with
    | none =>
      rw [seg_stats, seg_process_none r GlobalStats.new h hs]
      exact Or.inl rfl
    | some sid =>
      rw [seg_stats, seg_process_some r GlobalStats.new h hs]
      have hnew : (GlobalStats.new).by_segment = [] := rfl
      rw [hnew]
      exact getD_updateAssoc_nil_cases

/-- The source-view contribution of one record is zero or one update. -/
theorem ssp_delta (r : LogRecord) (k : String) :
    ssp_stats (process_record_global r GlobalStats.new) k = fs0 ∨
    ssp_stats (process_record_global r GlobalStats.new) k =
      upd_fs (has_bid r) (bid_price r) fs0 := by
  by_cases h : extract_w r = 0 ∨ extract_h r = 0
  · rw [process_skip GlobalStats.new h]
    exact Or.inl rfl
  · by_cases hs : extract_ssp r = ""
    · rw [ssp_stats, ssp_process_empty r GlobalStats.new h hs]
      exact Or.inl rfl
    · rw [ssp_stats, ssp_process_nonempty r GlobalStats.new h hs]
      have hnew : (GlobalStats.new).by_ssp = [] := rfl
      rw [hnew]
      exact getD_updateAssoc_nil_cases

/-- The time-view counter contribution of one record is zero or one update. -/
theorem time_delta (r : LogRecord) (k : Nat) :
    (time_at (process_record_global r GlobalStats.new) k).counters = fs0 ∨
    (time_at (process_record_global r GlobalStats.new) k).counters =
      upd_fs (has_bid r) (bid_price r) fs0 := by
  by_cases h : extract_w r = 0 ∨ extract_h r = 0
  · rw [process_skip GlobalStats.new h]
    exact Or.inl rfl
  · cases ht : r.ts_ms with
    | none =>
      rw [time_at, time_process_none r GlobalStats.new h ht]
      exact Or.inl rfl
    | some ts =>
      rw [time_at, time_process_some r GlobalStats.new h ht]
      have hnew : (GlobalStats.new).time_stats = [] := rfl
      rw [hnew]
      rcases (@getD_updateAssoc_nil_cases Nat TimeStats _ natLtB k (ts / 60000)
        (upd_ts ts (has_bid r) (bid_price r)) ts0) with hc | hc
      · rw [hc]
        exact Or.inl counters_ts0
      · rw [hc, counters_upd_ts, counters_ts0]
        exact Or.inr rfl

/-- Properties of adding a zero-or-one-update contribution to counters:
growth of requests and bids, lockstep of bids and price sum, conditional
growth of the price sum, preservation of the bid bound, and a frozen price
sum without a bid. -/
theorem addFS_delta_props (a : FormatStats) (b : Bool) (p : ℚ) (δ : FormatStats)
    (hδ : δ = fs0 ∨ δ = upd_fs b p fs0) :
    growFS a (addFS a δ) ∧
    lockstepFS p a (addFS a δ) ∧
    (0 ≤ p → a.sum_bid_price ≤ (addFS a δ).sum_bid_price) ∧
    (goodFS a → goodFS (addFS a δ)) ∧
    (b = false → (addFS a δ).sum_bid_price = a.sum_bid_price) := by
  rcases hδ with h | h
  · subst h
    rw [addFS_fs0]
    exact ⟨⟨le_refl _, le_refl _⟩, Or.inl rfl, fun _ => le_refl _,
      fun hg => hg, fun _ => rfl⟩
  · subst h
    cases b with
    | false =>
      refine ⟨⟨?_, ?_⟩, Or.inl ?_, fun _ => ?_, fun hg => ?_, fun _ => ?_⟩
      · simp only [addFS, upd_fs, fs0]
        omega
      · simp only [addFS, upd_fs, fs0]
        simp
      · simp [addFS, upd_fs, fs0]
      · simp [addFS, upd_fs, fs0]
      · simp only [goodFS, addFS, upd_fs, fs0] at hg ⊢
        simp only [if_neg Bool.false_ne_true]
        omega
      · simp [addFS, upd_fs, fs0]
    | true =>
      refine ⟨⟨?_, ?_⟩, Or.inr ⟨?_, ?_⟩, fun hp => ?_, fun hg => ?_, fun hb => ?_⟩
      · simp only [addFS, upd_fs, fs0]
        omega
      · simp only [addFS, upd_fs, fs0, if_pos rfl]
        omega
      · simp [addFS, upd_fs, fs0]
      · simp [addFS, upd_fs, fs0]
      · simp only [addFS, upd_fs, fs0, if_pos rfl, zero_add]
        exact le_add_of_nonneg_right hp
      · simp only [goodFS, addFS, upd_fs, fs0, if_true] at hg ⊢
        omega
      · exact absurd hb (by simp)

/-- Raw-view growth, lockstep and bound preservation for one record. -/
theorem raw_props (r : LogRecord) (g : GlobalStats) (hg : SortedG g) (k : Nat × Nat) :
    growFS (raw_stats g k) (raw_stats (process_record_global r g) k) ∧
    lockstepFS (bid_price r) (raw_stats g k) (raw_stats (process_record_global r g) k) ∧
    (0 ≤ bid_price r → (raw_stats g k).sum_bid_price ≤
      (raw_stats (process_record_global r g) k).sum_bid_price) ∧
    (goodFS (raw_stats g k) → goodFS (raw_stats (process_record_global r g) k)) ∧
    (has_bid r = false → (raw_stats (process_record_global r g) k).sum_bid_price =
      (raw_stats g k).sum_bid_price) := by
  rw [raw_step r g hg k]
  exact addFS_delta_props _ (has_bid r) (bid_price r) _ (raw_delta r k)

/-- Canonical-view growth, lockstep and bound preservation for one record. -/
theorem canon_props (r : LogRecord) (g : GlobalStats) (hg : SortedG g) (k : Nat × Nat) :
    growFS (canon_stats g k) (canon_stats (process_record_global r g) k) ∧
    lockstepFS (bid_price r) (canon_stats g k) (canon_stats (process_record_global r g) k) ∧
    (0 ≤ bid_price r → (canon_stats g k).sum_bid_price ≤
      (canon_stats (process_record_global r g) k).sum_bid_price) ∧
    (goodFS (canon_stats g k) → goodFS (canon_stats (process_record_global r g) k)) ∧
    (has_bid r = false → (canon_stats (process_record_global r g) k).sum_bid_price =
      (canon_stats g k).sum_bid_price) := by
  rw [canon_step r g hg k]
  exact addFS_delta_props _ (has_bid r) (bid_price r) _ (canon_delta r k)

/-- Publisher-view growth, lockstep and bound preservation for one record. -/
theorem pub_props (r : LogRecord) (g : GlobalStats) (hg : SortedG g) (k : String × String) :
    growFS (pub_stats g k) (pub_stats (process_record_global r g) k) ∧
    lockstepFS (bid_price r) (pub_stats g k) (pub_stats (process_record_global r g) k) ∧
    (0 ≤ bid_price r → (pub_stats g k).sum_bid_price ≤
      (pub_stats (process_record_global r g) k).sum_bid_price) ∧
    (goodFS (pub_stats g k) → goodFS (pub_stats (process_record_global r g) k)) ∧
    (has_bid r = false → (pub_stats (process_record_global r g) k).sum_bid_price =
      (pub_stats g k).sum_bid_price) := by
  rw [pub_step r g hg k]
  exact addFS_delta_props _ (has_bid r) (bid_price r) _ (pub_delta r k)

/-- Segment-view growth, lockstep and bound preservation for one record. -/
theorem seg_props (r : LogRecord) (g : GlobalStats) (hg : SortedG g) (k : String × String) :
    growFS (seg_stats g k) (seg_stats (process_record_global r g) k) ∧
    lockstepFS (bid_price r) (seg_stats g k) (seg_stats (process_record_global r g) k) ∧
    (0 ≤ bid_price r → (seg_stats g k).sum_bid_price ≤
      (seg_stats (process_record_global r g) k).sum_bid_price) ∧
    (goodFS (seg_stats g k) → goodFS (seg_stats (process_record_global r g) k)) ∧
    (has_bid r = false → (seg_stats (process_record_global r g) k).sum_bid_price =
      (seg_stats g k).sum_bid_price) := by
  rw [seg_step r g hg k]
  exact addFS_delta_props _ (has_bid r) (bid_price r) _ (seg_delta r k)

/-- Source-view growth, lockstep and bound preservation for one record. -/
theorem ssp_props (r : LogRecord) (g : GlobalStats) (hg : SortedG g) (k : String) :
    growFS (ssp_stats g k) (ssp_stats (process_record_global r g) k) ∧
    lockstepFS (bid_price r) (ssp_stats g k) (ssp_stats (process_record_global r g) k) ∧
    (0 ≤ bid_price r → (ssp_stats g k).sum_bid_price ≤
      (ssp_stats (process_record_global r g) k).sum_bid_price) ∧
    (goodFS (ssp_stats g k) → goodFS (ssp_stats (process_record_global r g) k)) ∧
    (has_bid r = false → (ssp_stats (process_record_global r g) k).sum_bid_price =
      (ssp_stats g k).sum_bid_price) := by
  rw [ssp_step r g hg k]
  exact addFS_delta_props _ (has_bid r) (bid_price r) _ (ssp_delta r k)

/-- Time-view growth, lockstep and bound preservation for one record. -/
theorem time_props (r : LogRecord) (g : GlobalStats) (hg : SortedG g) (k : Nat) :
    growFS (time_at g k).counters (time_at (process_record_global r g) k).counters ∧
    lockstepFS (bid_price r) (time_at g k).counters
      (time_at (process_record_global r g) k).counters ∧
    (0 ≤ bid_price r → (time_at g k).counters.sum_bid_price ≤
      (time_at (process_record_global r g) k).counters.sum_bid_price) ∧
    (goodFS (time_at g k).counters → goodFS (time_at (process_record_global r g) k).counters) ∧
    (has_bid r = false → (time_at (process_record_global r g) k).counters.sum_bid_price =
      (time_at g k).counters.sum_bid_price) := by
  rw [time_step r g hg k]
  exact addFS_delta_props _ (has_bid r) (bid_price r) _ (time_delta r k)

/-- The empty GlobalStats satisfies the bid bound everywhere. -/
theorem allViewsGood_new : allViewsGood GlobalStats.new :=
  ⟨fun _ => Nat.le_refl 0, fun _ => Nat.le_refl 0, fun _ => Nat.le_refl 0,
    fun _ => Nat.le_refl 0, fun _ => Nat.le_refl 0, fun _ => Nat.le_refl 0⟩

/-- Processing one record preserves the bid bound everywhere. -/
theorem allViewsGood_process (r : LogRecord) (g : GlobalStats) (hs : SortedG g)
    (hg : allViewsGood g) : allViewsGood (process_record_global r g) :=
  ⟨fun k => (raw_props r g hs k).2.2.2.1 (hg.1 k),
    fun k => (canon_props r g hs k).2.2.2.1 (hg.2.1 k),
    fun k => (pub_props r g hs k).2.2.2.1 (hg.2.2.1 k),
    fun k => (seg_props r g hs k).2.2.2.1 (hg.2.2.2.1 k),
    fun k => (ssp_props r g hs k).2.2.2.1 (hg.2.2.2.2.1 k),
    fun k => (time_props r g hs k).2.2.2.1 (hg.2.2.2.2.2 k)⟩

/-- Ingestion preserves the bid bound everywhere. -/
theorem allViewsGood_ingest (s : List LogRecord) :
    ∀ g : GlobalStats, SortedG g → allViewsGood g → allViewsGood (ingest s g) := by
  induction s with
  | nil => intro g _ hg; exact hg
  | cons r rest ih =>
    intro g hs hg
    exact ih (process_record_global r g) (sortedG_process r g hs)
      (allViewsGood_process r g hs hg)

/-- C6 (amended): after any ingestion the bid count never exceeds the
request count in any entry of any view; one further record never decreases
the request or bid counters of any key; the price sum moves only in
lockstep with the bid counter, by exactly the extracted bid price; and the
price sum is non-decreasing provided the extracted bid price of the record
is non-negative.  (Unconditional growth of the price sum fails for a
negative price, see the counterexample.) -/
theorem format_stats_invariants (recs : List LogRecord) (r : LogRecord) :
    allViewsGood (ingest recs GlobalStats.new) ∧
    viewsGrow (ingest recs GlobalStats.new)
      (process_record_global r (ingest recs GlobalStats.new)) ∧
    sumsLockstep r (ingest recs GlobalStats.new)
      (process_record_global r (ingest recs GlobalStats.new)) ∧
    (0 ≤ bid_price r → sumsGrow (ingest recs GlobalStats.new)
      (process_record_global r (ingest recs GlobalStats.new))) := by
  have hs : SortedG (ingest recs GlobalStats.new) :=
    sortedG_ingest recs GlobalStats.new sortedG_new
  refine ⟨allViewsGood_ingest recs GlobalStats.new sortedG_new allViewsGood_new,
    ⟨?_, ?_, ?_, ?_, ?_, ?_⟩, ⟨?_, ?_, ?_, ?_, ?_, ?_⟩, fun hp => ⟨?_, ?_, ?_, ?_, ?_, ?_⟩⟩
  · exact fun k => (raw_props r _ hs k).1
  · exact fun k => (canon_props r _ hs k).1
  · exact fun k => (pub_props r _ hs k).1
  · exact fun k => (seg_props r _ hs k).1
  · exact fun k => (ssp_props r _ hs k).1
  · exact fun k => (time_props r _ hs k).1
  · exact fun k => (raw_props r _ hs k).2.1
  · exact fun k => (canon_props r _ hs k).2.1
  · exact fun k => (pub_props r _ hs k).2.1
  · exact fun k => (seg_props r _ hs k).2.1
  · exact fun k => (ssp_props r _ hs k).2.1
  · exact fun k => (time_props r _ hs k).2.1
  · exact fun k => (raw_props r _ hs k).2.2.1 hp
  · exact fun k => (canon_props r _ hs k).2.2.1 hp
  · exact fun k => (pub_props r _ hs k).2.2.1 hp
  · exact fun k => (seg_props r _ hs k).2.2.1 hp
  · exact fun k => (ssp_props r _ hs k).2.2.1 hp
  · exact fun k => (time_props r _ hs k).2.2.1 hp

/-- Counterexample to C6 as stated: one record with a negative first-bid
price strictly decreases the price sum of its raw-size key, so the price
sum is not monotonically non-decreasing. -/
theorem sum_bid_price_not_monotone :
    (raw_stats (process_record_global rec_neg GlobalStats.new) (300, 250)).sum_bid_price
      < (raw_stats GlobalStats.new (300, 250)).sum_bid_price := by
  have h1 : raw_stats GlobalStats.new (300, 250) = fs0 := rfl
  have h2 : raw_stats (process_record_global rec_neg GlobalStats.new) (300, 250) =
      upd_fs true (-1) fs0 := rfl
  rw [h1, h2]
  simp only [upd_fs, fs0, if_true, zero_add]
  norm_num

/-- Witness for C6 discharging the non-negative-price hypothesis at the
record with price 1 over the empty prior stream. -/
theorem format_stats_invariants_witness :
    0 ≤ bid_price rec_bid ∧
    sumsGrow (ingest [] GlobalStats.new)
      (process_record_global rec_bid (ingest [] GlobalStats.new)) :=
  ⟨by decide, (format_stats_invariants [] rec_bid).2.2.2 (by decide)⟩

/-- C4: has_bid holds exactly when the response carries a non-empty
seat-bid array; with a bid present the price is the price of the first
bid of the first seat-bid entry; and without a bid the price is 0 and no
price sum of any key of any view moves. -/
theorem has_bid_spec (r : LogRecord) (recs : List LogRecord) :
    (has_bid r = true ↔
      ∃ arr, (r.response.get "seatbid").bind Json.as_array = some arr ∧ arr ≠ []) ∧
    (∀ p : ℚ, price_path r = some p → has_bid r = true → bid_price r = p) ∧
    (has_bid r = false → bid_price r = 0) ∧
    (has_bid r = false → sumsEq (ingest recs GlobalStats.new)
      (process_record_global r (ingest recs GlobalStats.new))) := by
  have hs : SortedG (ingest recs GlobalStats.new) :=
    sortedG_ingest recs GlobalStats.new sortedG_new
  refine ⟨?_, ?_, ?_, ?_⟩
  · cases harr : (r.response.get "seatbid").bind Json.as_array with
    | none => simp [has_bid, harr]
    | some arr => simp [has_bid, harr]
  · intro p hp hb
    simp [bid_price, hb, hp]
  · intro hb
    simp [bid_price, hb]
  · intro hb
    exact ⟨fun k => (raw_props r _ hs k).2.2.2.2 hb,
      fun k => (canon_props r _ hs k).2.2.2.2 hb,
      fun k => (pub_props r _ hs k).2.2.2.2 hb,
      fun k => (seg_props r _ hs k).2.2.2.2 hb,
      fun k => (ssp_props r _ hs k).2.2.2.2 hb,
      fun k => (time_props r _ hs k).2.2.2.2 hb⟩

/-- Witness for C4: the priced record carries price 1 through the price
path, and the bidless record moves no price sum. -/
theorem has_bid_spec_witness :
    (price_path rec_bid = some 1 ∧ has_bid rec_bid = true ∧ bid_price rec_bid = 1) ∧
    (has_bid rec_nobid = false ∧
      sumsEq (ingest [] GlobalStats.new)
        (process_record_global rec_nobid (ingest [] GlobalStats.new))) :=
  ⟨⟨by decide, by decide, (has_bid_spec rec_bid []).2.1 1 (by decide) (by decide)⟩,
    ⟨by decide, (has_bid_spec rec_nobid []).2.2.2 (by decide)⟩⟩

/-- C7: a record whose banner width or height is absent, non-numeric
(as_u64 yields nothing) or zero leaves the whole GlobalStats untouched. -/
theorem zero_size_skipped (r : LogRecord) (g : GlobalStats)
    (hmiss : (w_json r).as_u64 = none ∨ (w_json r).as_u64 = some 0 ∨
      (h_json r).as_u64 = none ∨ (h_json r).as_u64 = some 0) :
    process_record_global r g = g := by
  apply process_skip
  rcases hmiss with h | h | h | h
  · left
    simp [extract_w, h]
  · left
    simp [extract_w, h]
  · right
    simp [extract_h, h]
  · right
    simp [extract_h, h]

/-- Witness for C7 at the record with an absent width field. -/
theorem zero_size_skipped_witness :
    (w_json rec_now).as_u64 = none ∧
    process_record_global rec_now GlobalStats.new = GlobalStats.new :=
  ⟨by decide, zero_size_skipped rec_now GlobalStats.new (Or.inl (by decide))⟩

/-- C9: banner dimensions are read as unsigned 64-bit integers and cast to
32 bits, so a record is aggregated under the dimensions modulo 2 ^ 32; a
width that is a non-zero multiple of 2 ^ 32 truncates to 0 and skips the
record entirely. -/
theorem width_truncation_spec (n m : Nat) (resp : Json) (ts : Option Nat)
    (recs : List LogRecord) :
    extract_w ⟨mk_banner_request (.num (.uint n)) (.num (.uint m)), resp, ts⟩ =
      n % 2 ^ 32 ∧
    extract_h ⟨mk_banner_request (.num (.uint n)) (.num (.uint m)), resp, ts⟩ =
      m % 2 ^ 32 ∧
    (n % 2 ^ 32 = 0 ∨ m % 2 ^ 32 = 0 → ∀ g : GlobalStats,
      process_record_global
        ⟨mk_banner_request (.num (.uint n)) (.num (.uint m)), resp, ts⟩ g = g) ∧
    (n % 2 ^ 32 ≠ 0 → m % 2 ^ 32 ≠ 0 →
      (raw_stats (process_record_global
          ⟨mk_banner_request (.num (.uint n)) (.num (.uint m)), resp, ts⟩
          (ingest recs GlobalStats.new)) (n % 2 ^ 32, m % 2 ^ 32)).requests =
        (raw_stats (ingest recs GlobalStats.new) (n % 2 ^ 32, m % 2 ^ 32)).requests + 1) := by
  have hw : extract_w ⟨mk_banner_request (.num (.uint n)) (.num (.uint m)), resp, ts⟩ =
      n % 2 ^ 32 := rfl
  have hh : extract_h ⟨mk_banner_request (.num (.uint n)) (.num (.uint m)), resp, ts⟩ =
      m % 2 ^ 32 := rfl
  have hs : SortedG (ingest recs GlobalStats.new) :=
    sortedG_ingest recs GlobalStats.new sortedG_new
  refine ⟨hw, hh, ?_, ?_⟩
  · intro hzero g
    apply process_skip
    rcases hzero with h | h
    · left
      rw [hw]
      exact h
    · right
      rw [hh]
      exact h
  · intro hn hm
    have hskip : ¬ (extract_w ⟨mk_banner_request (.num (.uint n)) (.num (.uint m)), resp, ts⟩ = 0 ∨
        extract_h ⟨mk_banner_request (.num (.uint n)) (.num (.uint m)), resp, ts⟩ = 0) := by
      rw [hw, hh]
      rintro (h | h)
      · exact hn h
      · exact hm h
    rw [raw_stats, raw_process _ _ hskip, hw, hh,
      lookupA_updateAssoc_self isLinOrd_sizeLt hs.1]
    simp [upd_fs, raw_stats]

/-- Witness for C9: a width of 2 ^ 32 + 300 is counted at width 300, and a
width of exactly 2 ^ 32 skips the record. -/
theorem width_truncation_spec_witness :
    ((2 ^ 32 + 300) % 2 ^ 32 ≠ 0) ∧ ((250 : Nat) % 2 ^ 32 ≠ 0) ∧
    (raw_stats (process_record_global
        ⟨mk_banner_request (.num (.uint (2 ^ 32 + 300))) (.num (.uint 250)), .null, none⟩
        (ingest [] GlobalStats.new)) ((2 ^ 32 + 300) % 2 ^ 32, 250 % 2 ^ 32)).requests =
      (raw_stats (ingest [] GlobalStats.new)
        ((2 ^ 32 + 300) % 2 ^ 32, 250 % 2 ^ 32)).requests + 1 ∧
    (∀ g : GlobalStats, process_record_global
        ⟨mk_banner_request (.num (.uint (2 ^ 32))) (.num (.uint 250)), .null, none⟩ g = g) :=
  ⟨by decide, by decide,
    (width_truncation_spec (2 ^ 32 + 300) 250 .null none []).2.2.2 (by decide) (by decide),
    (width_truncation_spec (2 ^ 32) 250 .null none []).2.2.1 (Or.inl (by decide))⟩

/-- C10: a non-empty seat-bid array whose price path fails still counts as
a bid with price 0: the bid counters of the touched raw and canonical keys
grow by one while their price sums stand still, and from an empty state
such a record leaves its raw key with a positive bid count and average
price 0. -/
theorem missing_price_counts_bid (r : LogRecord) (recs : List LogRecord)
    (hb : has_bid r = true) (hp : price_path r = none)
    (hw : extract_w r ≠ 0) (hh : extract_h r ≠ 0) :
    bid_price r = 0 ∧
    (raw_stats (process_record_global r (ingest recs GlobalStats.new))
        (extract_w r, extract_h r)).bids =
      (raw_stats (ingest recs GlobalStats.new) (extract_w r, extract_h r)).bids + 1 ∧
    (raw_stats (process_record_global r (ingest recs GlobalStats.new))
        (extract_w r, extract_h r)).sum_bid_price =
      (raw_stats (ingest recs GlobalStats.new) (extract_w r, extract_h r)).sum_bid_price ∧
    (canon_stats (process_record_global r (ingest recs GlobalStats.new))
        (canonical_size (extract_w r) (extract_h r))).bids =
      (canon_stats (ingest recs GlobalStats.new)
        (canonical_size (extract_w r) (extract_h r))).bids + 1 ∧
    0 < (raw_stats (process_record_global r GlobalStats.new)
      (extract_w r, extract_h r)).bids ∧
    avg_bid_price (raw_stats (process_record_global r GlobalStats.new)
      (extract_w r, extract_h r)) = 0 := by
  have hskip : ¬ (extract_w r = 0 ∨ extract_h r = 0) := fun hc => hc.elim hw hh
  have hbp : bid_price r = 0 := by simp [bid_price, hb, hp]
  have hs : SortedG (ingest recs GlobalStats.new) :=
    sortedG_ingest recs GlobalStats.new sortedG_new
  have hnew : raw_stats (process_record_global r GlobalStats.new)
      (extract_w r, extract_h r) = upd_fs true 0 fs0 := by
    rw [raw_stats, raw_process r GlobalStats.new hskip]
    have h0 : (GlobalStats.new).by_raw_format = [] := rfl
    rw [h0, lookupA_updateAssoc_nil, if_pos rfl, Option.getD_some, hb, hbp]
  refine ⟨hbp, ?_, ?_, ?_, ?_, ?_⟩
  · rw [raw_stats, raw_process r _ hskip,
      lookupA_updateAssoc_self isLinOrd_sizeLt hs.1]
    simp [upd_fs, hb, raw_stats]
  · rw [raw_stats, raw_process r _ hskip,
      lookupA_updateAssoc_self isLinOrd_sizeLt hs.1]
    simp [upd_fs, hb, hbp, raw_stats]
  · rw [canon_stats, canon_process r _ hskip,
      lookupA_updateAssoc_self isLinOrd_sizeLt hs.2.1]
    simp [upd_fs, hb, canon_stats]
  · rw [hnew]
    decide
  · rw [hnew]
    simp [avg_bid_price, upd_fs, fs0]

/-- Witness for C10 at the record whose only seat-bid entry has no bid
array. -/
theorem missing_price_counts_bid_witness :
    has_bid rec_noprice = true ∧ price_path rec_noprice = none ∧
    extract_w rec_noprice ≠ 0 ∧ extract_h rec_noprice ≠ 0 ∧
    (0 < (raw_stats (process_record_global rec_noprice GlobalStats.new)
      (extract_w rec_noprice, extract_h rec_noprice)).bids ∧
    avg_bid_price (raw_stats (process_record_global rec_noprice GlobalStats.new)
      (extract_w rec_noprice, extract_h rec_noprice)) = 0) :=
  ⟨by decide, by decide, by decide, by decide,
    ⟨(missing_price_counts_bid rec_noprice [] (by decide) (by decide)
        (by decide) (by decide)).2.2.2.2.1,
      (missing_price_counts_bid rec_noprice [] (by decide) (by decide)
        (by decide) (by decide)).2.2.2.2.2⟩⟩

/-- C3: the time view uses the value 0 of min_ts as its unset sentinel, so
a genuine timestamp 0 is confused with the sentinel: ingesting timestamps
0 and then 59 (both in minute bucket 0) leaves min_ts at 59 although the
minimum observed timestamp is 0; max_ts is correct. -/
theorem time_min_ts_zero_confusion :
    rec_ts0.ts_ms = some 0 ∧ rec_ts59.ts_ms = some 59 ∧
    (0 : Nat) / 60000 = 0 ∧ (59 : Nat) / 60000 = 0 ∧
    (time_at (ingest [rec_ts0, rec_ts59] GlobalStats.new) 0).requests = 2 ∧
    (time_at (ingest [rec_ts0, rec_ts59] GlobalStats.new) 0).max_ts = 59 ∧
    (time_at (ingest [rec_ts0, rec_ts59] GlobalStats.new) 0).min_ts = 59 := by
  refine ⟨rfl, rfl, rfl, rfl, ?_, ?_, ?_⟩ <;> decide
